import Mathlib

/-!
Verification of the PodcastPros performance-dashboard core: a shallow
embedding of the CSV ingestion, validation, ranking/threshold and
persistence routines of the repository, with theorems checking the
specification's claims against the embedded code.

Modelling conventions:
* JavaScript strings are Lean `String`s; the JS string methods used by the
  code are implemented below over `String.data` (`List Char`).
* JavaScript numbers are modelled as exact rationals `ℚ`; `NaN` is
  modelled by `Option ℚ` (`none` = NaN) at the points where the code can
  produce it.  `new Date()` timestamps are abstract `Nat` clock values
  passed in explicitly, and `randomUUID` is modelled by a fresh counter.
* JS `Array.prototype.sort` (stable per ES2019) is modelled by
  `List.mergeSort`, and a JS `Map` by an insertion-ordered association
  list with replace-on-set semantics.
-/

namespace Podcast

/-! ## String primitives -/

/-- The JS whitespace characters relevant to this code base (model of the
characters matched by `trim` and `\s`). -/
def jsWS (c : Char) : Bool :=
  c = ' ' || c = '\t' || c = '\n' || c = '\r' || c = '\x0b' || c = '\x0c'

/-- Model of `String.prototype.trim` on character lists. -/
def trimChars (l : List Char) : List Char :=
  ((l.dropWhile jsWS).reverse.dropWhile jsWS).reverse

/-- Model of `String.prototype.trim`. -/
def jsTrim (s : String) : String := ⟨trimChars s.data⟩

/-- Model of `String.prototype.toLowerCase` (ASCII, which covers every
header string the code compares). -/
def jsLower (s : String) : String := ⟨s.data.map Char.toLower⟩

/-- State machine for `.replace(/\s+/g, ' ')`: the flag records whether
the previous character was inside a whitespace run (the first whitespace
character of a run emits one space, the rest of the run emits nothing). -/
def collapseWSAux : Bool → List Char → List Char
  | _, [] => []
  | inRun, c :: rest =>
    if jsWS c then
      if inRun then collapseWSAux true rest else ' ' :: collapseWSAux true rest
    else c :: collapseWSAux false rest

/-- Model of `.replace(/\s+/g, ' ')`: every maximal run of whitespace
characters is replaced by a single space. -/
def collapseWSChars (l : List Char) : List Char := collapseWSAux false l

/-- Model of `.replace(/\s+/g, ' ')` on strings. -/
def collapseWS (s : String) : String := ⟨collapseWSChars s.data⟩

/-- Model of `String.prototype.split` with a single-character separator. -/
def splitOnC (sep : Char) : List Char → List (List Char)
  | [] => [[]]
  | c :: rest =>
    if c = sep then [] :: splitOnC sep rest
    else
      match splitOnC sep rest with
      | [] => [[c]]
      | h :: t => (c :: h) :: t

/-- Model of `String.prototype.split` with a one-character separator
string, on `String`s. -/
def jsSplit (s : String) (sep : Char) : List String :=
  (splitOnC sep s.data).map fun l => ⟨l⟩

/-- Model of `.replace(/x/g, '')` for a single character `x` (deletes
every occurrence). -/
def removeAllChar (x : Char) (s : String) : String :=
  ⟨s.data.filter fun c => c ≠ x⟩

/-- Model of `.replace('x', '')` with a plain string pattern (JS replaces
only the first occurrence). -/
def removeFirstCharAux (x : Char) : List Char → List Char
  | [] => []
  | c :: rest => if c = x then rest else c :: removeFirstCharAux x rest

/-- Model of `.replace('x', '')` on strings. -/
def removeFirstChar (x : Char) (s : String) : String :=
  ⟨removeFirstCharAux x s.data⟩

/-! ## Number primitives -/

/-- Digit characters and their values. -/
def digitVal (c : Char) : Nat := c.toNat - 48

/-- The decimal value of a list of digit characters (most significant
first). -/
def digitsToNat (l : List Char) : Nat :=
  l.foldl (fun a c => 10 * a + digitVal c) 0

/-- The decimal digit character for `n < 10`. -/
def digitChar (n : Nat) : Char := Char.ofNat (48 + n)

/-- Fuel-driven digit extraction (the fuel strictly dominates the number,
so it never runs out; structural recursion keeps it kernel-computable). -/
def natDigitsF : Nat → Nat → List Char
  | 0, _ => []
  | fuel + 1, n =>
    if n < 10 then [digitChar n]
    else natDigitsF fuel (n / 10) ++ [digitChar (n % 10)]

/-- Decimal digit list (most significant first) of a natural number:
model of the integer part of JS number-to-string conversion. -/
def natDigits (n : Nat) : List Char := natDigitsF (n + 1) n

/-- Model of JS number-to-string (template literal) for integer values. -/
def intChars (i : Int) : List Char :=
  if i < 0 then '-' :: natDigits i.natAbs else natDigits i.natAbs

/-- Model of JS number-to-string for integers, as a `String`. -/
def jsIntStr (i : Int) : String := ⟨intChars i⟩

/-- Strip an optional leading `+`/`-` sign, returning the sign and the
remaining characters. -/
def signSplit (l : List Char) : Int × List Char :=
  match l with
  | [] => (1, [])
  | c :: r => if c = '-' then (-1, r) else if c = '+' then (1, r) else (1, c :: r)

/-- Model of `parseInt` (radix 10; the code only feeds it decimal
fields): skip leading whitespace, optional sign, then a maximal run of
decimal digits; `none` models `NaN`. -/
def jsParseInt (s : String) : Option Int :=
  let signAndRest := signSplit (s.data.dropWhile jsWS)
  let ds := signAndRest.2.takeWhile Char.isDigit
  if ds.isEmpty then none
  else some (signAndRest.1 * (digitsToNat ds : Int))

/-- The exponent suffix of a JS float literal: after an `e`/`E`, an
optional sign and a maximal digit run; no digits means the exponent part
is ignored (as `parseFloat` does). -/
def jsFloatExp (l : List Char) : Int :=
  match l with
  | e :: r =>
    if e = 'e' ∨ e = 'E' then
      let signAndRest := signSplit r
      let ds := signAndRest.2.takeWhile Char.isDigit
      if ds.isEmpty then 0 else signAndRest.1 * (digitsToNat ds : Int)
    else 0
  | [] => 0

/-- Model of `parseFloat`: skip leading whitespace, optional sign,
integer digits, optional fraction, optional exponent; the longest valid
numeric prefix is used and `none` models `NaN`. -/
def jsParseFloat (s : String) : Option ℚ :=
  let signAndRest := signSplit (s.data.dropWhile jsWS)
  let ds := signAndRest.2.takeWhile Char.isDigit
  let rest := signAndRest.2.dropWhile Char.isDigit
  let fracAndRest : List Char × List Char :=
    match rest with
    | '.' :: r => (r.takeWhile Char.isDigit, r.dropWhile Char.isDigit)
    | _ => ([], rest)
  if ds.isEmpty ∧ fracAndRest.1.isEmpty then none
  else
    let mant : ℚ :=
      (digitsToNat ds : ℚ) + (digitsToNat fracAndRest.1 : ℚ) / ((10 : ℚ) ^ fracAndRest.1.length)
    some ((signAndRest.1 : ℚ) * mant * (10 : ℚ) ^ jsFloatExp fracAndRest.2)

/-- Model of the idiom `parseFloat(x) || 0`: the JS `||` sends `NaN` (and
`0` itself) to `0`. -/
def orZero (o : Option ℚ) : ℚ := o.getD 0

/-! ## The `MemStorage` productivity-map key

`MemStorage` keys its productivity map by the template literal
`` `${contractorId}-${month}` ``.  We embed the key construction and
(further below) prove it injective on (contractorId, month) pairs by
exhibiting a decoder. -/

/-- The map key `` `${contractorId}-${month}` `` used by `MemStorage`. -/
def recKeyChars (c : Int) (month : List Char) : List Char :=
  intChars c ++ '-' :: month

/-- The map key on `String`s. -/
def recKey (c : Int) (month : String) : String := ⟨recKeyChars c month.data⟩

/-- Decoder for `recKeyChars`. -/
def recKeyDecode (l : List Char) : Option (Int × List Char) :=
  match l with
  | '-' :: rest =>
    let ds := rest.takeWhile Char.isDigit
    match rest.dropWhile Char.isDigit with
    | '-' :: m => if ds.isEmpty then none else some (-(digitsToNat ds : Int), m)
    | _ => none
  | l =>
    let ds := l.takeWhile Char.isDigit
    match l.dropWhile Char.isDigit with
    | '-' :: m => if ds.isEmpty then none else some ((digitsToNat ds : Int), m)
    | _ => none

/-! ## `routes.ts`: CSV line tokenizer and header matching -/

/-- Core loop of `parseCSVLine` (routes.ts): a quote character toggles
in-quote state unless it is an escaped `""` inside quotes; a comma outside
quotes ends the current field; all other characters accumulate. -/
def parseCSVLineAux : List Char → Bool → List Char → List (List Char)
  | [], _, cur => [cur]
  | c :: rest, inQ, cur =>
    if c = '"' then
      if inQ then
        match rest with
        | c2 :: rest2 =>
          if c2 = '"' then parseCSVLineAux rest2 true (cur ++ ['"'])
          else parseCSVLineAux (c2 :: rest2) false cur
        | [] => parseCSVLineAux [] false cur
      else parseCSVLineAux rest true cur
    else if c = ',' ∧ inQ = false then cur :: parseCSVLineAux rest inQ []
    else parseCSVLineAux rest inQ (cur ++ [c])

/-- `parseCSVLine` (routes.ts): tokenize one CSV line, trimming each
extracted field. -/
def parseCSVLine (line : String) : List String :=
  (parseCSVLineAux line.data false []).map fun f => ⟨trimChars f⟩

/-- Header normalization used by `headersMatch` (routes.ts):
`h.trim().toLowerCase().replace(/\s+/g, ' ')`. -/
def normalizeHeader (h : String) : String := collapseWS (jsLower (jsTrim h))

/-- `headersMatch` (routes.ts): equal length, and position-wise equality
of normalized headers (embedding of the indexed loop with early return). -/
def headersMatch (received expected : List String) : Bool :=
  received.length = expected.length &&
    (List.range expected.length).all fun i =>
      normalizeHeader (received.getD i "") = normalizeHeader (expected.getD i "")

/-- The expected productivity-upload header row (routes.ts). -/
def expectedProductivityHeaders : List String :=
  ["Emp No.", "Name", "Month", "Productive Hours", "Hours", "Productivity"]

/-- The known roster header row (routes.ts). -/
def expectedRosterHeaders : List String :=
  ["Name", "ID", "Personal Email", "Work Email", "Work Location", "Position",
   "Start Date", "Separation Date", "Birthday"]

/-- Outcome of the header check of the productivity upload handler. -/
inductive HeaderDecision where
  | proceed
  | guidanceRoster
  | mismatch
deriving DecidableEq

/-- The productivity upload handler's header branch (routes.ts lines
319-335): accept on a productivity-header match; on mismatch, answer with
roster-upload guidance when the headers match the roster set, otherwise a
plain mismatch rejection reporting expected and received. -/
def productivityHeaderDecision (headers : List String) : HeaderDecision :=
  if headersMatch headers expectedProductivityHeaders then .proceed
  else if headersMatch headers expectedRosterHeaders then .guidanceRoster
  else .mismatch

/-- The roster upload handler's header check (routes.ts lines 451-463):
`expectedHeaders.every((header, index) => headers[index] === header)` —
case-sensitive, exact string comparison, and only over the indices of the
expected list (extra received columns are never looked at). -/
def rosterHeadersOk (headers : List String) : Bool :=
  expectedRosterHeaders.enum.all fun p => headers.get? p.1 = some p.2

/-- The U+FEFF byte-order-mark character. -/
def bomChar : Char := Char.ofNat 0xFEFF

/-- Cleaning applied to each received productivity header before
comparison (routes.ts): trim, strip every `"`, strip every BOM char. -/
def cleanHeader (h : String) : String :=
  removeAllChar bomChar (removeAllChar '"' (jsTrim h))

/-! ## `routes.ts`: field conversions of the productivity upload -/

/-- A `\w` word character of a JS regex: `[A-Za-z0-9_]`. -/
def isWordChar (c : Char) : Bool := c.isAlpha || c.isDigit || c = '_'

/-- Shape test `month.match(/^\d{2}-\w{3}$/)`: exactly two decimal
digits, a dash, and three word characters. -/
def monthDDw3 (m : String) : Bool :=
  match m.data with
  | [d₁, d₂, x, w₁, w₂, w₃] =>
    d₁.isDigit && d₂.isDigit && x = '-' && isWordChar w₁ && isWordChar w₂ && isWordChar w₃
  | _ => false

/-- The month fixup of the upload handler (routes.ts lines 357-361): a
token matching `/^\d{2}-\w{3}$/` is split at `-` and reassembled as
`` `${monthName}-${day}` ``; anything else passes through unchanged. -/
def monthFix (m : String) : String :=
  if monthDDw3 m then
    let parts := splitOnC '-' m.data
    ⟨parts.getD 1 [] ++ '-' :: parts.getD 0 []⟩
  else m

/-- The productive-hours conversion of the upload handler (routes.ts
lines 363-370): a nonempty field containing `:` is split and decoded as
`parseInt(h) + parseInt(m)/60 + parseInt(s)/3600` (NaN, modelled `none`,
when any of the first three split parts is missing or non-numeric);
otherwise a nonempty field is `parseFloat || 0`; an empty field stays at
the initial `0`. -/
def routesParseProductiveHours (s : String) : Option ℚ :=
  if s ≠ "" ∧ jsTrim s ≠ "" ∧ s.data.contains ':' then
    let parts := (splitOnC ':' s.data).map fun l => jsParseInt ⟨l⟩
    match parts.get? 0, parts.get? 1, parts.get? 2 with
    | some (some h), some (some m), some (some sec) =>
      some ((h : ℚ) + (m : ℚ) / 60 + (sec : ℚ) / 3600)
    | _, _, _ => none
  else if s ≠ "" ∧ jsTrim s ≠ "" then some (orZero (jsParseFloat s))
  else some 0

/-- The productivity-percentage conversion of the upload handler
(routes.ts lines 372-384): strip the first `%`, trim; empty gives 0; a
parsed value in `(0, 1]` is scaled by 100; anything else (including NaN,
modelled `none`) passes through. -/
def routesParseProductivity (s : String) : Option ℚ :=
  let str := jsTrim (removeFirstChar '%' s)
  if str ≠ "" then
    match jsParseFloat str with
    | none => none
    | some v => if 0 < v ∧ v ≤ 1 then some (v * 100) else some v
  else some 0

/-! ## `CSVParser` (client csv-parser): productive hours and validation -/

/-- `CSVParser.parseProductiveHours`: a field containing `:` with at
least two split parts decodes as `(parseInt(p0)||0) + (parseInt(p1)||0)/60
+ (parseInt(p2)||0)/3600` (the seconds part defaulting to 0 when absent);
otherwise `parseFloat` with NaN mapped to 0. -/
def csvParserParseProductiveHours (s : String) : ℚ :=
  if s.data.contains ':' then
    let parts := splitOnC ':' s.data
    if parts.length ≥ 2 then
      let hours : Int := (jsParseInt ⟨parts.getD 0 []⟩).getD 0
      let minutes : Int := (jsParseInt ⟨parts.getD 1 []⟩).getD 0
      let seconds : Int := if parts.length > 2 then (jsParseInt ⟨parts.getD 2 []⟩).getD 0 else 0
      (hours : ℚ) + (minutes : ℚ) / 60 + (seconds : ℚ) / 3600
    else orZero (jsParseFloat s)
  else orZero (jsParseFloat s)

/-- A parsed productivity CSV row (`CSVRow` of the client parser):
`empNo`, `hours` and `productivity` come from `parseFloat`, while
`productiveHours` is kept as the raw string. -/
structure CSVRow where
  empNo : ℚ
  name : String
  month : String
  productiveHours : String
  hours : ℚ
  productivity : ℚ
deriving DecidableEq

/-- The twelve canonical month abbreviations of
`CSVParser.validateEmployeeData`. -/
def validMonths : List String :=
  ["Jan", "Feb", "Mar", "Apr", "May", "Jun", "Jul", "Aug", "Sep", "Oct", "Nov", "Dec"]

/-- `row.month.split('-')[0]`. -/
def monthAbbr (m : String) : String := (jsSplit m '-').getD 0 ""

/-- Decimal rendering of a rational to two places: model of JS
`Number.prototype.toFixed(2)` (sign first, then the magnitude rounded
with ties up, as the ECMAScript algorithm does; exact on the values this
code base produces). -/
def toFixed2 (q : ℚ) : String :=
  let cents : Nat := ((|q| * 100 + 1 / 2 : ℚ)).floor.toNat
  let sign : List Char := if q < 0 then ['-'] else []
  ⟨sign ++ natDigits (cents / 100) ++ '.' ::
    (if (cents % 100) < 10 then '0' :: natDigits (cents % 100) else natDigits (cents % 100))⟩

/-- Default JS number-to-string for the rationals this file manipulates:
integers print as decimal integers, other values as `intPart.fracDigits`
with two places (the repository only ever prints such values). -/
def qToString (q : ℚ) : String :=
  if q.den = 1 then jsIntStr q.num else toFixed2 q

/-- `validateEmployeeData` messages for one row (`CSVParser`, rows
numbered `index + 2`): one message per offending rule, in source order. -/
def rowValidationErrors (rowNum : Nat) (row : CSVRow) : List String :=
  (if row.empNo < 1 ∨ row.empNo > 999 then
    ["Row " ++ Nat.repr rowNum ++ ": Employee number should be between 1 and 999"]
  else []) ++
  (if ¬ validMonths.contains (monthAbbr row.month) then
    ["Row " ++ Nat.repr rowNum ++ ": Invalid month abbreviation \"" ++ monthAbbr row.month ++
      "\". Use standard 3-letter abbreviations (Jan, Feb, etc.)"]
  else []) ++
  (if row.productivity < 0 ∨ row.productivity > 100 then
    ["Row " ++ Nat.repr rowNum ++ ": Productivity should be between 0 and 100"]
  else []) ++
  (if row.hours < 0 then
    ["Row " ++ Nat.repr rowNum ++ ": Hours cannot be negative"]
  else []) ++
  (if csvParserParseProductiveHours row.productiveHours > row.hours then
    ["Row " ++ Nat.repr rowNum ++ ": Productive hours (" ++
      toFixed2 (csvParserParseProductiveHours row.productiveHours) ++
      ") cannot exceed total hours (" ++ qToString row.hours ++ ")"]
  else [])

/-- The accumulator loop of `CSVParser.validateEmployeeData`: a `forEach`
pushing messages onto a shared `errors` array, row index starting at 0. -/
def validateEmployeeDataAux : Nat → List CSVRow → List String → List String
  | _, [], acc => acc
  | i, row :: rest, acc =>
    validateEmployeeDataAux (i + 1) rest (acc ++ rowValidationErrors (i + 2) row)

/-- `CSVParser.validateEmployeeData` (part_006 lines 108-145). -/
def validateEmployeeData (data : List CSVRow) : List String :=
  validateEmployeeDataAux 0 data []

/-! ## CSV export escaping (`csv-utils`) -/

/-- The formula-injection test of the export escapers:
`/^[=+\-@\t]/.test(stringValue.trim())`. -/
def dangerousStart (s : String) : Bool :=
  match (jsTrim s).data with
  | c :: _ => c = '=' || c = '+' || c = '-' || c = '@' || c = '\t'
  | [] => false

/-- Whether a field must be quoted: it contains a comma, a double quote,
or a newline character. -/
def needsQuoting (s : String) : Bool :=
  s.data.contains ',' || s.data.contains '"' || s.data.contains '\n' || s.data.contains '\r'

/-- `replace(/"/g, '""')`: double every internal double quote. -/
def doubleQuotes (s : String) : String :=
  ⟨s.data.flatMap fun c => if c = '"' then ['"', '"'] else [c]⟩

/-- `escapeCsvField` (server csv-utils, part_001 lines 9-28): prefix a
single quote when the trimmed value starts with a dangerous character,
then quote-wrap (doubling internal quotes) when the value contains a
comma, quote or newline. -/
def escapeCsvField (s : String) : String :=
  let v := if dangerousStart s then "'" ++ s else s
  if needsQuoting v then "\"" ++ doubleQuotes v ++ "\"" else v

/-- `escapeCsvValue` (client csv-utils, part_006 companion, lines
180-198): same logic as the server `escapeCsvField`. -/
def escapeCsvValue (s : String) : String :=
  let v := if dangerousStart s then "'" ++ s else s
  if needsQuoting v then "\"" ++ doubleQuotes v ++ "\"" else v

/-- `generateCsv` (server csv-utils): BOM prefix, escaped fields joined
by commas, rows joined by newlines. -/
def generateCsv (data : List (List String)) : String :=
  ⟨[bomChar]⟩ ++ String.intercalate "\n" (data.map fun row =>
    String.intercalate "," (row.map escapeCsvField))

/-- `createCsvContent` (client csv-utils): BOM prefix, escaped header row
then escaped data rows joined by newlines. -/
def createCsvContent (headers : List String) (rows : List (List String)) : String :=
  ⟨[bomChar]⟩ ++ String.intercalate "\n"
    ((String.intercalate "," (headers.map escapeCsvValue)) ::
      rows.map fun row => String.intercalate "," (row.map escapeCsvValue))

/-! ## Data model shared by both storage backends -/

/-- A contractor row (shared schema): `status` and `contractorType` are
free-text at storage level. -/
structure Contractor where
  id : Int
  name : String
  personalEmail : String
  workEmail : String
  workLocation : String
  position : String
  startDate : String
  separationDate : String
  birthday : String
  status : String
  contractorType : String
deriving DecidableEq

/-- A stored productivity row; `uid` models the generated uuid primary
key and `createdAt` the timestamp. -/
structure ProductivityRecord where
  uid : Nat
  contractorId : Int
  month : String
  productiveHours : ℚ
  totalHours : ℚ
  productivity : ℚ
  createdAt : Nat
deriving DecidableEq

/-- An insert payload (`InsertProductivityData`): no id, no timestamp. -/
structure InsertProductivityData where
  contractorId : Int
  month : String
  productiveHours : ℚ
  totalHours : ℚ
  productivity : ℚ
deriving DecidableEq

/-- A derived monthly ranking entry (`MonthlyRanking`). -/
structure MonthlyRanking where
  contractorId : Int
  name : String
  hours : ℚ
  month : String
  rank : Nat
deriving DecidableEq

/-! ## JS `Map` model: insertion-ordered association list -/

/-- `Map.prototype.get`. -/
def mapGet {κ α : Type} [DecidableEq κ] (m : List (κ × α)) (k : κ) : Option α :=
  (m.find? fun p => p.1 = k).map Prod.snd

/-- `Map.prototype.set`: replace in place when the key is present
(insertion order preserved), else append. -/
def mapSet {κ α : Type} [DecidableEq κ] (m : List (κ × α)) (k : κ) (v : α) :
    List (κ × α) :=
  if (m.find? fun p => p.1 = k).isSome then
    m.map fun p => if p.1 = k then (k, v) else p
  else m ++ [(k, v)]

/-! ## `MemStorage` (storage.ts) -/

/-- The in-memory backend state: two JS `Map`s plus a fresh-uuid
counter modelling `randomUUID`. -/
structure MemState where
  contractors : List (Int × Contractor)
  productivity : List (String × ProductivityRecord)
  nextUid : Nat
deriving DecidableEq

/-- `MemStorage.getAllContractors`: `Array.from(map.values())`. -/
def memGetAllContractors (st : MemState) : List Contractor :=
  st.contractors.map Prod.snd

/-- `MemStorage.getContractor`. -/
def memGetContractor (st : MemState) (i : Int) : Option Contractor :=
  mapGet st.contractors i

/-- `MemStorage.getProductivityDataByMonth`. -/
def memGetProductivityDataByMonth (st : MemState) (month : String) :
    List ProductivityRecord :=
  (st.productivity.map Prod.snd).filter fun d => d.month = month

/-- The pre-rank ranking entry built by `MemStorage.getMonthlyRankings`
for one record (name looked up in the contractor list, `'Unknown'` when
absent; rank set later). -/
def memRankingEntry (cs : List Contractor) (month : String)
    (d : ProductivityRecord) : MonthlyRanking :=
  { contractorId := d.contractorId
    name := ((cs.find? fun c => c.id = d.contractorId).map Contractor.name).getD "Unknown"
    hours := d.productiveHours
    month := month
    rank := 0 }

/-- `MemStorage.getMonthlyRankings` (storage.ts lines 200-219): map the
month's records, sort by `b.hours - a.hours` (hours descending, stable),
then assign `rank := index + 1`. -/
def memGetMonthlyRankings (st : MemState) (month : String) : List MonthlyRanking :=
  let monthData := memGetProductivityDataByMonth st month
  let cs := memGetAllContractors st
  let pre := monthData.map (memRankingEntry cs month)
  let sorted := pre.mergeSort fun a b => decide (b.hours ≤ a.hours)
  sorted.enum.map fun p => { p.2 with rank := p.1 + 1 }

/-- The under-performer filter of `MemStorage.getUnderPerformers`: the
contractor must exist, hours must be strictly positive and strictly below
the type threshold (50 for `'Part Time'`, otherwise 100). -/
def memUnderFilter (cs : List Contractor) (d : ProductivityRecord) : Bool :=
  match cs.find? fun c => c.id = d.contractorId with
  | none => false
  | some c =>
    decide (0 < d.productiveHours) &&
      decide (d.productiveHours < (if c.contractorType = "Part Time" then (50 : ℚ) else 100))

/-- `MemStorage.getUnderPerformers` (storage.ts lines 226-252): filter,
map, sort by `a.hours - b.hours` (hours ascending, stable), then assign
`rank := index + 1` within the filtered subset. -/
def memGetUnderPerformers (st : MemState) (month : String) : List MonthlyRanking :=
  let monthData := memGetProductivityDataByMonth st month
  let cs := memGetAllContractors st
  let filtered := monthData.filter (memUnderFilter cs)
  let pre := filtered.map (memRankingEntry cs month)
  let sorted := pre.mergeSort fun a b => decide (a.hours ≤ b.hours)
  sorted.enum.map fun p => { p.2 with rank := p.1 + 1 }

/-- `MemStorage.archiveContractor` (storage.ts lines 134-142): missing id
gives `false` and no change; otherwise the contractor is re-`set` with
status `'archived'`. -/
def memArchiveContractor (st : MemState) (i : Int) : MemState × Bool :=
  match mapGet st.contractors i with
  | none => (st, false)
  | some c =>
    ({ st with contractors := mapSet st.contractors i { c with status := "archived" } }, true)

/-- `MemStorage.createProductivityData`: fresh uuid, current timestamp,
keyed by `` `${contractorId}-${month}` ``. -/
def memCreateProductivityData (st : MemState) (now : Nat)
    (item : InsertProductivityData) : MemState × ProductivityRecord :=
  let r : ProductivityRecord :=
    { uid := st.nextUid, contractorId := item.contractorId, month := item.month
      productiveHours := item.productiveHours, totalHours := item.totalHours
      productivity := item.productivity, createdAt := now }
  ({ st with
      productivity := mapSet st.productivity (recKey item.contractorId item.month) r
      nextUid := st.nextUid + 1 }, r)

/-- `MemStorage.bulkCreateProductivityData` (storage.ts lines 254-279):
per item, update the existing record for the key (new values, refreshed
timestamp) or create a new one.  The per-item `new Date()` calls of one
bulk call are modelled by the single clock value `now`. -/
def memBulkCreateProductivityData (st : MemState) (now : Nat) :
    List InsertProductivityData → MemState × List ProductivityRecord
  | [] => (st, [])
  | item :: rest =>
    let key := recKey item.contractorId item.month
    match mapGet st.productivity key with
    | some existing =>
      let updated := { existing with
        productiveHours := item.productiveHours
        totalHours := item.totalHours
        productivity := item.productivity
        createdAt := now }
      let st' := { st with productivity := mapSet st.productivity key updated }
      let res := memBulkCreateProductivityData st' now rest
      (res.1, updated :: res.2)
    | none =>
      let created := memCreateProductivityData st now item
      let res := memBulkCreateProductivityData created.1 now rest
      (res.1, created.2 :: res.2)

/-- Well-formedness of the in-memory productivity map: keys are distinct
and each entry's key is the key of its record. -/
def MemWF (st : MemState) : Prop :=
  (st.productivity.map Prod.fst).Nodup ∧
    ∀ e ∈ st.productivity, e.1 = recKey e.2.contractorId e.2.month

/-! ## `DatabaseStorage` (database-storage.ts) -/

/-- The database backend state: two tables plus a fresh-uuid counter. -/
structure DbState where
  contractors : List Contractor
  productivity : List ProductivityRecord
  nextUid : Nat
deriving DecidableEq

/-- `DatabaseStorage.getContractor`: `select ... where eq(id)`. -/
def dbGetContractor (st : DbState) (i : Int) : Option Contractor :=
  st.contractors.find? fun c => c.id = i

/-- The joined row set of `DatabaseStorage.getMonthlyRankings`: month's
productivity rows inner-joined with their contractor (the contractor id
is a primary key, so at most one match). -/
def dbRankingRows (st : DbState) (month : String) :
    List (ProductivityRecord × Contractor) :=
  (st.productivity.filter fun d => d.month = month).filterMap fun d =>
    (st.contractors.find? fun c => c.id = d.contractorId).map fun c => (d, c)

/-- The `orderBy(desc(productiveHours), desc(productivity))` comparison. -/
def dbRankLE (a b : ProductivityRecord × Contractor) : Bool :=
  decide (b.1.productiveHours < a.1.productiveHours) ||
    (decide (a.1.productiveHours = b.1.productiveHours) &&
      decide (b.1.productivity ≤ a.1.productivity))

/-- The sorted joined rows of `DatabaseStorage.getMonthlyRankings`. -/
def dbRankingSorted (st : DbState) (month : String) :
    List (ProductivityRecord × Contractor) :=
  (dbRankingRows st month).mergeSort dbRankLE

/-- `DatabaseStorage.getMonthlyRankings` (database-storage.ts lines
134-155): sorted join, then `rank := index + 1`. -/
def dbGetMonthlyRankings (st : DbState) (month : String) : List MonthlyRanking :=
  (dbRankingSorted st month).enum.map fun p =>
    { contractorId := p.2.1.contractorId, name := p.2.2.name
      hours := p.2.1.productiveHours, month := p.2.1.month, rank := p.1 + 1 }

/-- The SQL filter of `DatabaseStorage.getUnderPerformers`: month match,
hours strictly positive, and (`'Full Time'` with hours < 100) or
(`'Part Time'` with hours < 50). -/
def dbUnderFilter (d : ProductivityRecord) (c : Contractor) : Bool :=
  decide (0 < d.productiveHours) &&
    ((c.contractorType = "Full Time" && decide (d.productiveHours < 100)) ||
      (c.contractorType = "Part Time" && decide (d.productiveHours < 50)))

/-- The `orderBy(asc(productiveHours), desc(productivity))` comparison. -/
def dbUnderLE (a b : ProductivityRecord × Contractor) : Bool :=
  decide (a.1.productiveHours < b.1.productiveHours) ||
    (decide (a.1.productiveHours = b.1.productiveHours) &&
      decide (b.1.productivity ≤ a.1.productivity))

/-- The sorted joined rows of `DatabaseStorage.getUnderPerformers`. -/
def dbUnderSorted (st : DbState) (month : String) :
    List (ProductivityRecord × Contractor) :=
  (((st.productivity.filter fun d => d.month = month).filterMap fun d =>
      (st.contractors.find? fun c => c.id = d.contractorId).map fun c => (d, c)).filter
    fun p => dbUnderFilter p.1 p.2).mergeSort dbUnderLE

/-- `DatabaseStorage.getUnderPerformers` (database-storage.ts lines
162-199). -/
def dbGetUnderPerformers (st : DbState) (month : String) : List MonthlyRanking :=
  (dbUnderSorted st month).enum.map fun p =>
    { contractorId := p.2.1.contractorId, name := p.2.2.name
      hours := p.2.1.productiveHours, month := p.2.1.month, rank := p.1 + 1 }

/-- `DatabaseStorage.archiveContractor` (database-storage.ts lines
63-70): `update set status='archived' where eq(id)`; the result is
`rowCount > 0`. -/
def dbArchiveContractor (st : DbState) (i : Int) : DbState × Bool :=
  ({ st with contractors := st.contractors.map fun c =>
      if c.id = i then { c with status := "archived" } else c },
   0 < st.contractors.countP fun c => c.id = i)

/-- One `insert ... onConflictDoUpdate` step of
`DatabaseStorage.bulkCreateProductivityData`: on a (contractorId, month)
conflict the row is updated in place with the new values and `NOW()`;
otherwise a fresh row is appended. -/
def dbUpsert (st : DbState) (now : Nat) (item : InsertProductivityData) :
    DbState × ProductivityRecord :=
  match st.productivity.find? fun r =>
      r.contractorId = item.contractorId ∧ r.month = item.month with
  | some existing =>
    let updated := { existing with
      productiveHours := item.productiveHours, totalHours := item.totalHours
      productivity := item.productivity, createdAt := now }
    ({ st with productivity := st.productivity.map fun r =>
        if r.contractorId = item.contractorId ∧ r.month = item.month then updated else r },
     updated)
  | none =>
    let r : ProductivityRecord :=
      { uid := st.nextUid, contractorId := item.contractorId, month := item.month
        productiveHours := item.productiveHours, totalHours := item.totalHours
        productivity := item.productivity, createdAt := now }
    ({ st with productivity := st.productivity ++ [r], nextUid := st.nextUid + 1 }, r)

/-- `DatabaseStorage.bulkCreateProductivityData` (database-storage.ts
lines 202-227): sequential upserts, returning the affected rows. -/
def dbBulkCreateProductivityData (st : DbState) (now : Nat) :
    List InsertProductivityData → DbState × List ProductivityRecord
  | [] => (st, [])
  | item :: rest =>
    let step := dbUpsert st now item
    let res := dbBulkCreateProductivityData step.1 now rest
    (res.1, step.2 :: res.2)

/-- Well-formedness of the database productivity table: the
`unique(contractorId, month)` constraint. -/
def DbWF (st : DbState) : Prop :=
  (st.productivity.map fun r => (r.contractorId, r.month)).Nodup

/-- The stored records of a given (contractorId, month) pair. -/
def recsForPair (l : List ProductivityRecord) (c : Int) (mo : String) :
    List ProductivityRecord :=
  l.filter fun r => r.contractorId = c ∧ r.month = mo

/-! ## The productivity upload handler (routes.ts `/api/upload-csv`) -/

/-- A per-row error message, ``` `Row ${i + 2}: ${message}` ```. -/
def rowError (n : Nat) (msg : String) : String :=
  "Row " ++ Nat.repr n ++ ": " ++ msg

/-- One iteration of the data-row loop of the productivity upload handler
(routes.ts lines 342-407): tokenize, check the column count, convert the
fields, check the contractor exists, validate the payload (the zod schema
`insertProductivityDataSchema` rejects the NaN values modelled by
`none`). -/
def parseProductivityRow (st : DbState) (rowNum : Nat) (line : String) :
    Except String InsertProductivityData :=
  let columns := parseCSVLine line
  if columns.length < 6 then
    .error (rowError rowNum
      ("Insufficient columns (expected 6, got " ++ Nat.repr columns.length ++ ")"))
  else
    let name := columns.getD 1 ""
    let month := monthFix (columns.getD 2 "")
    let hours := orZero (jsParseFloat (columns.getD 4 ""))
    let productiveHours := routesParseProductiveHours (columns.getD 3 "")
    let productivity := routesParseProductivity (columns.getD 5 "")
    match jsParseInt (columns.getD 0 "") with
    | none => .error (rowError rowNum ("Contractor NaN (" ++ name ++ ") not found in roster"))
    | some empNo =>
      if (dbGetContractor st empNo).isSome then
        match productiveHours, productivity with
        | some ph, some p =>
          .ok { contractorId := empNo, month := month, productiveHours := ph
                totalHours := hours, productivity := p }
        | _, _ => .error (rowError rowNum "Expected number, received nan")
      else
        .error (rowError rowNum
          ("Contractor " ++ jsIntStr empNo ++ " (" ++ name ++ ") not found in roster"))

/-- The error component of a row outcome. -/
def errPart {α : Type} : Except String α → Option String
  | .error e => some e
  | .ok _ => none

/-- The success component of a row outcome. -/
def okPart {α : Type} : Except String α → Option α
  | .ok d => some d
  | .error _ => none

/-- The data-row loop of the upload handler: index `i` starts at 0, the
reported row number is `i + 2`; a failing row contributes an error and is
excluded, and the loop continues. -/
def processRows (st : DbState) : Nat → List String → List InsertProductivityData × List String
  | _, [] => ([], [])
  | i, row :: rest =>
    let res := processRows st (i + 1) rest
    match parseProductivityRow st (i + 2) row with
    | .ok d => (d :: res.1, res.2)
    | .error e => (res.1, e :: res.2)

/-- `content.split('\n').filter(line => line.trim())`. -/
def splitLines (content : String) : List String :=
  (jsSplit content '\n').filter fun l => jsTrim l ≠ ""

/-- Response of the productivity upload handler. -/
inductive UploadResult where
  | tooShort
  | guidanceRoster
  | headerMismatch
  | failed (errors : List String)
  | success (processed : Nat) (errors : List String)
deriving DecidableEq

/-- The productivity upload handler (routes.ts lines 298-425): split and
drop blank lines, reject files with fewer than two remaining lines, check
headers, run the data-row loop, fail when no row survived (first 10
errors), otherwise bulk-upsert and answer with the processed count and
the first 10 errors. -/
def uploadCsv (st : DbState) (now : Nat) (content : String) : UploadResult × DbState :=
  let lines := splitLines content
  if lines.length < 2 then (.tooShort, st)
  else
    let headers := (parseCSVLine (lines.getD 0 "")).map cleanHeader
    match productivityHeaderDecision headers with
    | .guidanceRoster => (.guidanceRoster, st)
    | .mismatch => (.headerMismatch, st)
    | .proceed =>
      let res := processRows st 0 (lines.drop 1)
      if res.2 ≠ [] ∧ res.1 = [] then (.failed (res.2.take 10), st)
      else
        let ins := dbBulkCreateProductivityData st now res.1
        (.success ins.2.length (res.2.take 10), ins.1)

/-! ## Concrete fixtures used by witnesses and counterexamples -/

/-- A full-time contractor fixture. -/
def sampleContractor (i : Int) (nm : String) : Contractor :=
  { id := i, name := nm, personalEmail := "", workEmail := "", workLocation := ""
    position := "", startDate := "", separationDate := "", birthday := ""
    status := "active", contractorType := "Full Time" }

/-- A productivity record fixture. -/
def sampleRecord (u : Nat) (i : Int) (mo : String) (ph th pr : ℚ) : ProductivityRecord :=
  { uid := u, contractorId := i, month := mo, productiveHours := ph
    totalHours := th, productivity := pr, createdAt := 0 }

/-- Tied-hours in-memory store for the ranking counterexample: two
August records with equal hours, the earlier-inserted one having the
lower productivity percentage. -/
def c1Store : MemState :=
  { contractors := [(1, sampleContractor 1 "A"), (2, sampleContractor 2 "B")]
    productivity :=
      [(recKey 1 "Aug-25", sampleRecord 0 1 "Aug-25" 10 12 50),
       (recKey 2 "Aug-25", sampleRecord 1 2 "Aug-25" 10 12 90)]
    nextUid := 2 }

/-- Tied-hours in-memory store for the under-performer counterexample:
two full-time contractors at 40 productive hours each (both below the
100-hour threshold), the earlier-inserted one having the lower
productivity percentage. -/
def c2Store : MemState :=
  { contractors := [(1, sampleContractor 1 "A"), (2, sampleContractor 2 "B")]
    productivity :=
      [(recKey 1 "Aug-25", sampleRecord 0 1 "Aug-25" 40 50 60),
       (recKey 2 "Aug-25", sampleRecord 1 2 "Aug-25" 40 50 95)]
    nextUid := 2 }

/-- Roster-only database store for the upload fixtures. -/
def c7Store : DbState :=
  { contractors := [sampleContractor 1 "MK"], productivity := [], nextUid := 0 }

/-- Upload content whose only data row sits on the third physical line of
the file, after a blank line. -/
def c7Content : String :=
  "Emp No.,Name,Month,Productive Hours,Hours,Productivity\n\n99,X,Aug-25,10,10,50"

/-- A well-formed upload content with one good data row. -/
def c7GoodContent : String :=
  "Emp No.,Name,Month,Productive Hours,Hours,Productivity\n1,MK,25-Aug,114:39:00,120.17,95.20"

/-! ## Helper lemmas: strings and digits -/

theorem splitOnC_ne_nil (sep : Char) (l : List Char) : splitOnC sep l ≠ [] := by
  induction l with
  | nil => simp [splitOnC]
  | cons c rest ih =>
    simp only [splitOnC]
    split
    · simp
    · split <;> simp_all

theorem digitsToNat_append (l₁ l₂ : List Char) :
    digitsToNat (l₁ ++ l₂) =
      l₂.foldl (fun a c => 10 * a + digitVal c) (digitsToNat l₁) := by
  simp [digitsToNat, List.foldl_append]

theorem digitChar_isDigit {n : Nat} (h : n < 10) : (digitChar n).isDigit = true := by
  interval_cases n <;> decide

theorem digitVal_digitChar {n : Nat} (h : n < 10) : digitVal (digitChar n) = n := by
  interval_cases n <;> decide

theorem natDigitsF_props :
    ∀ (fuel n : Nat), n < fuel →
      natDigitsF fuel n ≠ [] ∧ (∀ c ∈ natDigitsF fuel n, c.isDigit = true) ∧
        digitsToNat (natDigitsF fuel n) = n := by
  intro fuel
  induction fuel with
  | zero => intro n hn; omega
  | succ fuel ih =>
    intro n hn
    by_cases h : n < 10
    · refine ⟨by simp [natDigitsF, h], ?_, ?_⟩
      · intro c hc
        simp only [natDigitsF, if_pos h, List.mem_singleton] at hc
        subst hc; exact digitChar_isDigit h
      · simp [natDigitsF, h, digitsToNat, digitVal_digitChar h]
    · have hrec : n / 10 < fuel := by
        have h1 : n / 10 < n := Nat.div_lt_self (by omega) (by omega)
        omega
      have ihr := ih (n / 10) hrec
      refine ⟨by simp [natDigitsF, h], ?_, ?_⟩
      · intro c hc
        simp only [natDigitsF, if_neg h, List.mem_append, List.mem_singleton] at hc
        rcases hc with hc | hc
        · exact ihr.2.1 c hc
        · subst hc; exact digitChar_isDigit (Nat.mod_lt _ (by omega))
      · simp only [natDigitsF, if_neg h]
        rw [digitsToNat_append, ihr.2.2]
        simp only [List.foldl_cons, List.foldl_nil]
        rw [digitVal_digitChar (Nat.mod_lt _ (by omega))]
        omega

theorem natDigits_ne_nil (n : Nat) : natDigits n ≠ [] :=
  (natDigitsF_props (n + 1) n (by omega)).1

theorem natDigits_all_digit (n : Nat) : ∀ c ∈ natDigits n, c.isDigit = true :=
  (natDigitsF_props (n + 1) n (by omega)).2.1

theorem digitsToNat_natDigits (n : Nat) : digitsToNat (natDigits n) = n :=
  (natDigitsF_props (n + 1) n (by omega)).2.2

theorem takeWhile_append_of_all {p : Char → Bool} {xs : List Char} {y : Char}
    {ys : List Char} (hxs : ∀ x ∈ xs, p x = true) (hy : p y = false) :
    (xs ++ y :: ys).takeWhile p = xs ∧ (xs ++ y :: ys).dropWhile p = y :: ys := by
  induction xs with
  | nil => simp [List.takeWhile_cons, List.dropWhile_cons, hy]
  | cons x xs ih =>
    have hx : p x = true := hxs x (by simp)
    have ih' := ih fun z hz => hxs z (by simp [hz])
    simp [List.takeWhile_cons, List.dropWhile_cons, hx, ih'.1, ih'.2]

theorem recKeyDecode_encode (c : Int) (m : List Char) :
    recKeyDecode (recKeyChars c m) = some (c, m) := by
  have hdash : Char.isDigit '-' = false := by decide
  have hall := natDigits_all_digit c.natAbs
  have hsp := @takeWhile_append_of_all Char.isDigit (natDigits c.natAbs) '-' m hall hdash
  have hne : (natDigits c.natAbs).isEmpty = false := by
    cases h : natDigits c.natAbs with
    | nil => exact absurd h (natDigits_ne_nil _)
    | cons a b => simp
  rcases lt_or_ge c 0 with hneg | hpos
  · have hrepr : recKeyChars c m = '-' :: (natDigits c.natAbs ++ '-' :: m) := by
      simp [recKeyChars, intChars, hneg]
    rw [hrepr]
    simp only [recKeyDecode, hsp.1, hsp.2, hne, if_false, Option.some.injEq,
      Prod.mk.injEq]
    have habs : -((c.natAbs : Int)) = c := by omega
    rw [digitsToNat_natDigits, habs]
    simp
  · have hrepr : recKeyChars c m = natDigits c.natAbs ++ '-' :: m := by
      simp [recKeyChars, intChars, not_lt.mpr hpos]
    -- the key starts with a digit, so the sign branch of the decoder
    -- does not fire
    cases hnd : natDigits c.natAbs with
    | nil => exact absurd hnd (natDigits_ne_nil _)
    | cons d ds =>
      have hddig : d.isDigit = true := hall d (by simp [hnd])
      have hdne : d ≠ '-' := by
        intro h; rw [h] at hddig; exact absurd hddig (by decide)
      rw [hrepr, hnd]
      rw [hnd] at hsp hne
      simp only [List.cons_append] at hsp ⊢
      rw [recKeyDecode.eq_def]
      split
      · next heq => exact absurd (List.cons.inj heq).1.symm (Ne.symm hdne)
      · next hne2 =>
        simp only [hsp.1, hsp.2, hne, if_false, Option.some.injEq, Prod.mk.injEq]
        have habs : ((c.natAbs : Int)) = c := by omega
        rw [← hnd, digitsToNat_natDigits, habs]
        simp

/-- The `MemStorage` productivity key function is injective: distinct
(contractorId, month) pairs always get distinct keys. -/
theorem recKey_injective {c₁ c₂ : Int} {m₁ m₂ : String}
    (h : recKey c₁ m₁ = recKey c₂ m₂) : c₁ = c₂ ∧ m₁ = m₂ := by
  have hd : recKeyChars c₁ m₁.data = recKeyChars c₂ m₂.data := by
    have := congrArg String.data h
    simpa [recKey] using this
  have h1 : some (c₁, m₁.data) = some (c₂, m₂.data) := by
    rw [← recKeyDecode_encode c₁ m₁.data, ← recKeyDecode_encode c₂ m₂.data, hd]
  have h2 : (c₁, m₁.data) = (c₂, m₂.data) := Option.some.inj h1
  have hc : c₁ = c₂ := congrArg Prod.fst h2
  have hm : m₁.data = m₂.data := congrArg Prod.snd h2
  exact ⟨hc, String.ext hm⟩

/-! ## Helper lemmas: enumeration, sorting, association maps -/

theorem ranks_of_enum_map {α : Type} (g : Nat × α → MonthlyRanking)
    (hg : ∀ p, (g p).rank = p.1 + 1) :
    ∀ (l : List α) (n : Nat),
      ((l.enumFrom n).map g).map MonthlyRanking.rank = List.range' (n + 1) l.length := by
  intro l
  induction l with
  | nil => intro n; simp [List.enumFrom]
  | cons a as ih =>
    intro n
    simp only [List.enumFrom, List.map_cons, List.length_cons, List.range'_succ]
    rw [hg, ih (n + 1)]

theorem proj_of_enum_map {α β γ : Type} (g : Nat × α → β) (f : β → γ) (k : α → γ)
    (h : ∀ p, f (g p) = k p.2) :
    ∀ (l : List α) (n : Nat), ((l.enumFrom n).map g).map f = l.map k := by
  intro l
  induction l with
  | nil => intro n; simp [List.enumFrom]
  | cons a as ih =>
    intro n
    simp only [List.enumFrom, List.map_cons]
    rw [h, ih (n + 1)]

theorem pairwise_enumFrom {α : Type} {R : α → α → Prop} :
    ∀ (l : List α) (n : Nat), l.Pairwise R →
      (l.enumFrom n).Pairwise fun p q => R p.2 q.2 := by
  intro l
  induction l with
  | nil => intro n _; simp [List.enumFrom]
  | cons a as ih =>
    intro n hp
    rcases List.pairwise_cons.mp hp with ⟨hhead, htail⟩
    refine List.pairwise_cons.mpr ⟨?_, ih (n + 1) htail⟩
    intro q hq
    have : q.2 ∈ as := by
      have := List.enumFrom_map_snd (n + 1) as
      rw [← this]
      exact List.mem_map_of_mem Prod.snd hq
    exact hhead q.2 this

theorem pairwise_of_sorted_enum {α : Type} {le : α → α → Bool}
    (g : Nat × α → MonthlyRanking) (P : MonthlyRanking → MonthlyRanking → Prop)
    (hP : ∀ i a j b, le a b = true → P (g (i, a)) (g (j, b)))
    {l : List α} (hl : l.Pairwise fun a b => le a b = true) (n : Nat) :
    ((l.enumFrom n).map g).Pairwise P := by
  rw [List.pairwise_map]
  have := pairwise_enumFrom l n hl
  exact this.imp fun {p q} hpq => by
    have := hP p.1 p.2 q.1 q.2 hpq
    simpa using this

theorem mapGet_mapSet_self {κ α : Type} [DecidableEq κ] (m : List (κ × α)) (k : κ) (v : α) :
    mapGet (mapSet m k v) k = some v := by
  unfold mapSet
  split
  · next hp =>
    unfold mapGet
    rw [List.find?_map]
    rcases hfind : m.find? fun p => p.1 = k with _ | e
    · rw [hfind] at hp; simp at hp
    · have hcomp : ((fun p : κ × α => decide (p.1 = k)) ∘
          fun p : κ × α => if p.1 = k then (k, v) else p) = fun p : κ × α => decide (p.1 = k) := by
        funext p
        by_cases h : p.1 = k <;> simp [h]
      rw [hcomp, hfind]
      have := List.find?_some hfind
      simp at this
      simp [this]
  · next hp =>
    unfold mapGet
    rw [List.find?_append]
    rcases hfind : m.find? fun p => p.1 = k with _ | e
    · rw [hfind]; simp
    · rw [hfind] at hp; simp at hp

theorem mapGet_mapSet_ne {κ α : Type} [DecidableEq κ] (m : List (κ × α)) (k j : κ) (v : α)
    (hjk : j ≠ k) : mapGet (mapSet m k v) j = mapGet m j := by
  unfold mapSet
  split
  · unfold mapGet
    rw [List.find?_map]
    have hcomp : ((fun p : κ × α => decide (p.1 = j)) ∘
        fun p : κ × α => if p.1 = k then (k, v) else p) = fun p : κ × α => decide (p.1 = j) := by
      funext p
      by_cases h : p.1 = k
      · simp [h, Ne.symm hjk]
      · simp [h]
    rw [hcomp]
    rcases hfind : m.find? fun p => p.1 = j with _ | e
    · rw [hfind]; simp
    · rw [hfind]
      have he := List.find?_some hfind
      simp only [decide_eq_true_eq] at he
      have hek : e.1 ≠ k := by rw [he]; exact hjk
      simp [hek]
  · unfold mapGet
    rw [List.find?_append]
    rcases hfind : m.find? fun p => p.1 = j with _ | e
    · rw [hfind]; simp [Ne.symm hjk]
    · rw [hfind]; simp

theorem mapSet_mem_or {κ α : Type} [DecidableEq κ] (m : List (κ × α)) (k : κ) (v : α) :
    ∀ e ∈ mapSet m k v, e = (k, v) ∨ e ∈ m := by
  unfold mapSet
  split
  · intro e he
    rcases List.mem_map.mp he with ⟨p, hp, hpe⟩
    by_cases h : p.1 = k
    · left; rw [← hpe]; simp [h]
    · right; rw [← hpe]; simpa [h] using hp
  · intro e he
    rcases List.mem_append.mp he with h | h
    · exact Or.inr h
    · left; simpa using h

theorem mapSet_keys_of_present {κ α : Type} [DecidableEq κ] (m : List (κ × α)) (k : κ) (v : α)
    (hp : (m.find? fun p => p.1 = k).isSome) :
    (mapSet m k v).map Prod.fst = m.map Prod.fst := by
  unfold mapSet
  rw [if_pos hp, List.map_map]
  congr 1
  funext p
  by_cases h : p.1 = k <;> simp [h]

theorem mapSet_keys_of_absent {κ α : Type} [DecidableEq κ] (m : List (κ × α)) (k : κ) (v : α)
    (hp : ¬ (m.find? fun p => p.1 = k).isSome) :
    (mapSet m k v).map Prod.fst = m.map Prod.fst ++ [k] := by
  unfold mapSet
  rw [if_neg hp]
  simp

theorem mapSet_keys_nodup {κ α : Type} [DecidableEq κ] (m : List (κ × α)) (k : κ) (v : α)
    (hnd : (m.map Prod.fst).Nodup) : ((mapSet m k v).map Prod.fst).Nodup := by
  by_cases hp : (m.find? fun p => p.1 = k).isSome
  · rw [mapSet_keys_of_present m k v hp]; exact hnd
  · rw [mapSet_keys_of_absent m k v hp]
    have hk : k ∉ m.map Prod.fst := by
      intro hmem
      rcases List.mem_map.mp hmem with ⟨p, hpm, hpk⟩
      have : m.find? (fun p => p.1 = k) = none := by
        rcases hfind : m.find? fun p => p.1 = k with _ | e
        · exact hfind
        · exact absurd (by rw [hfind]; rfl) hp
      have := List.find?_eq_none.mp this p hpm
      simp [hpk] at this
    simp [List.nodup_append, hk, hnd]

theorem filter_eq_singleton_of_nodup_keys {α β : Type} [DecidableEq β] (f : α → β) :
    ∀ (l : List α), (l.map f).Nodup → ∀ a ∈ l,
      (l.filter fun x => f x = f a) = [a] := by
  intro l
  induction l with
  | nil => intro _ a ha; simp at ha
  | cons x xs ih =>
    intro hnd a ha
    have hnd' : (xs.map f).Nodup := by
      simp only [List.map_cons, List.nodup_cons] at hnd
      exact hnd.2
    have hx : f x ∉ xs.map f := by
      simp only [List.map_cons, List.nodup_cons] at hnd
      exact hnd.1
    rcases List.mem_cons.mp ha with rfl | ha'
    · rw [List.filter_cons]
      simp only [decide_True, if_pos]
      have : xs.filter (fun y => f y = f a) = [] := by
        rw [List.filter_eq_nil_iff]
        intro b hb
        simp only [decide_eq_true_eq]
        intro hfb
        exact hx (by rw [← hfb]; exact List.mem_map_of_mem f hb)
      rw [this]
    · rw [List.filter_cons]
      have hfx : ¬ (f x = f a) := by
        intro hfa
        exact hx (by rw [hfa]; exact List.mem_map_of_mem f ha')
      simp only [hfx, decide_False, if_neg, Bool.false_eq_true, not_false_iff]
      exact ih hnd' a ha'

/-! ## Helper lemmas: sort comparators -/

theorem memDescLE_trans (a b c : MonthlyRanking)
    (h₁ : decide (b.hours ≤ a.hours) = true) (h₂ : decide (c.hours ≤ b.hours) = true) :
    decide (c.hours ≤ a.hours) = true := by
  simp only [decide_eq_true_eq] at *
  exact le_trans h₂ h₁

theorem memDescLE_total (a b : MonthlyRanking) :
    (decide (b.hours ≤ a.hours) || decide (a.hours ≤ b.hours)) = true := by
  simp only [Bool.or_eq_true, decide_eq_true_eq]
  exact le_total _ _

theorem memAscLE_trans (a b c : MonthlyRanking)
    (h₁ : decide (a.hours ≤ b.hours) = true) (h₂ : decide (b.hours ≤ c.hours) = true) :
    decide (a.hours ≤ c.hours) = true := by
  simp only [decide_eq_true_eq] at *
  exact le_trans h₁ h₂

theorem memAscLE_total (a b : MonthlyRanking) :
    (decide (a.hours ≤ b.hours) || decide (b.hours ≤ a.hours)) = true := by
  simp only [Bool.or_eq_true, decide_eq_true_eq]
  exact le_total _ _

theorem dbRankLE_trans (a b c : ProductivityRecord × Contractor)
    (h₁ : dbRankLE a b = true) (h₂ : dbRankLE b c = true) : dbRankLE a c = true := by
  simp only [dbRankLE, Bool.or_eq_true, Bool.and_eq_true, decide_eq_true_eq] at *
  rcases h₁ with h₁ | ⟨h₁e, h₁p⟩ <;> rcases h₂ with h₂ | ⟨h₂e, h₂p⟩
  · exact Or.inl (lt_trans h₂ h₁)
  · exact Or.inl (h₂e ▸ h₁)
  · exact Or.inl (h₁e ▸ h₂)
  · exact Or.inr ⟨h₁e.trans h₂e, le_trans h₂p h₁p⟩

theorem dbRankLE_total (a b : ProductivityRecord × Contractor) :
    (dbRankLE a b || dbRankLE b a) = true := by
  simp only [dbRankLE, Bool.or_eq_true, Bool.and_eq_true, decide_eq_true_eq]
  rcases lt_trichotomy a.1.productiveHours b.1.productiveHours with h | h | h
  · exact Or.inr (Or.inl h)
  · rcases le_total a.1.productivity b.1.productivity with hp | hp
    · exact Or.inr (Or.inr ⟨h.symm, hp⟩)
    · exact Or.inl (Or.inr ⟨h, hp⟩)
  · exact Or.inl (Or.inl h)

theorem dbUnderLE_trans (a b c : ProductivityRecord × Contractor)
    (h₁ : dbUnderLE a b = true) (h₂ : dbUnderLE b c = true) : dbUnderLE a c = true := by
  simp only [dbUnderLE, Bool.or_eq_true, Bool.and_eq_true, decide_eq_true_eq] at *
  rcases h₁ with h₁ | ⟨h₁e, h₁p⟩ <;> rcases h₂ with h₂ | ⟨h₂e, h₂p⟩
  · exact Or.inl (lt_trans h₁ h₂)
  · exact Or.inl (h₂e ▸ h₁)
  · exact Or.inl (h₁e ▸ h₂)
  · exact Or.inr ⟨h₁e.trans h₂e, le_trans h₂p h₁p⟩

theorem dbUnderLE_total (a b : ProductivityRecord × Contractor) :
    (dbUnderLE a b || dbUnderLE b a) = true := by
  simp only [dbUnderLE, Bool.or_eq_true, Bool.and_eq_true, decide_eq_true_eq]
  rcases lt_trichotomy a.1.productiveHours b.1.productiveHours with h | h | h
  · exact Or.inl (Or.inl h)
  · rcases le_total a.1.productivity b.1.productivity with hp | hp
    · exact Or.inr (Or.inr ⟨h.symm, hp⟩)
    · exact Or.inl (Or.inr ⟨h, hp⟩)
  · exact Or.inr (Or.inl h)

/-! ## Helper lemmas: the upload row loop -/

theorem processRows_eq (st : DbState) :
    ∀ (rows : List String) (k : Nat),
      processRows st k rows =
        ((rows.enumFrom k).filterMap fun p => okPart (parseProductivityRow st (p.1 + 2) p.2),
         (rows.enumFrom k).filterMap fun p => errPart (parseProductivityRow st (p.1 + 2) p.2) ) := by
  intro rows
  induction rows with
  | nil => intro k; simp [processRows, List.enumFrom]
  | cons row rest ih =>
    intro k
    simp only [processRows, ih (k + 1), List.enumFrom, List.filterMap_cons]
    rcases h : parseProductivityRow st (k + 2) row with e | d
    · simp [okPart, errPart]
    · simp [okPart, errPart]

theorem processRows_length (st : DbState) :
    ∀ (rows : List String) (k : Nat),
      rows.length = (processRows st k rows).1.length + (processRows st k rows).2.length := by
  intro rows
  induction rows with
  | nil => intro k; simp [processRows]
  | cons row rest ih =>
    intro k
    simp only [processRows, List.length_cons]
    rcases h : parseProductivityRow st (k + 2) row with e | d
    · simpa using by rw [ih (k + 1)]; omega
    · simpa using by rw [ih (k + 1)]; omega

theorem parseProductivityRow_error_shape (st : DbState) (n : Nat) (line : String)
    (e : String) (h : parseProductivityRow st n line = .error e) :
    ∃ msg, e = "Row " ++ Nat.repr n ++ ": " ++ msg := by
  rw [parseProductivityRow.eq_def] at h
  dsimp only at h
  split at h
  · exact ⟨_, (Except.error.inj h).symm⟩
  · split at h
    · exact ⟨_, (Except.error.inj h).symm⟩
    · split at h
      · split at h
        · exact absurd h (by simp)
        · exact ⟨_, (Except.error.inj h).symm⟩
      · exact ⟨_, (Except.error.inj h).symm⟩

theorem dbBulk_length (now : Nat) :
    ∀ (items : List InsertProductivityData) (st : DbState),
      (dbBulkCreateProductivityData st now items).2.length = items.length := by
  intro items
  induction items with
  | nil => intro st; simp [dbBulkCreateProductivityData]
  | cons item rest ih =>
    intro st
    simp only [dbBulkCreateProductivityData, List.length_cons]
    rw [ih]

/-! ## Helper lemmas: characters, trimming, splitting, number parsing -/

theorem jsWS_of_isDigit {c : Char} (h : c.isDigit = true) : jsWS c = false := by
  by_contra h'
  have hws : jsWS c = true := by
    cases hv : jsWS c
    · exact absurd hv h'
    · rfl
  unfold jsWS at hws
  simp only [Bool.or_eq_true, decide_eq_true_eq] at hws
  rcases hws with ((((h1 | h1) | h1) | h1) | h1) | h1 <;> (subst h1; exact absurd h (by decide))

theorem isDigit_ne_colon {c : Char} (h : c.isDigit = true) : c ≠ ':' := by
  intro hc; subst hc; exact absurd h (by decide)

theorem isDigit_ne_dash {c : Char} (h : c.isDigit = true) : c ≠ '-' := by
  intro hc; subst hc; exact absurd h (by decide)

theorem isDigit_ne_plus {c : Char} (h : c.isDigit = true) : c ≠ '+' := by
  intro hc; subst hc; exact absurd h (by decide)

theorem isWordChar_ne_dash {c : Char} (h : isWordChar c = true) : c ≠ '-' := by
  intro hc; subst hc; exact absurd h (by decide)

theorem jsWS_of_colon : jsWS ':' = false := by decide

theorem takeWhile_eq_self_of_all {p : Char → Bool} :
    ∀ {l : List Char}, (∀ c ∈ l, p c = true) → l.takeWhile p = l := by
  intro l
  induction l with
  | nil => intro _; rfl
  | cons c rest ih =>
    intro h
    rw [List.takeWhile_cons, if_pos (h c (by simp))]
    rw [ih fun z hz => h z (by simp [hz])]

theorem dropWhile_eq_self_of_none {p : Char → Bool} {l : List Char}
    (h : ∀ c ∈ l, p c = false) : l.dropWhile p = l := by
  cases l with
  | nil => rfl
  | cons c rest =>
    rw [List.dropWhile_cons, if_neg (by simp [h c (by simp)])]

theorem trimChars_eq_self {l : List Char} (h : ∀ c ∈ l, jsWS c = false) :
    trimChars l = l := by
  unfold trimChars
  rw [dropWhile_eq_self_of_none h,
      dropWhile_eq_self_of_none fun c hc => h c (List.mem_reverse.mp hc),
      List.reverse_reverse]

theorem mk_ne_empty_of_ne_nil {l : List Char} (h : l ≠ []) :
    (⟨l⟩ : String) ≠ "" := by
  intro he
  exact h (congrArg String.data he)

theorem splitOnC_no_sep {sep : Char} :
    ∀ {l : List Char}, (∀ c ∈ l, c ≠ sep) → splitOnC sep l = [l] := by
  intro l
  induction l with
  | nil => intro _; rfl
  | cons c rest ih =>
    intro h
    simp only [splitOnC]
    rw [if_neg (h c (by simp)), ih fun z hz => h z (by simp [hz])]

theorem splitOnC_append {sep : Char} {rest : List Char} :
    ∀ {xs : List Char}, (∀ c ∈ xs, c ≠ sep) →
      splitOnC sep (xs ++ sep :: rest) = xs :: splitOnC sep rest := by
  intro xs
  induction xs with
  | nil => intro _; simp [splitOnC]
  | cons x xs ih =>
    intro h
    simp only [List.cons_append, splitOnC]
    rw [if_neg (h x (by simp))]
    rw [show (xs.append (sep :: rest)) = xs ++ sep :: rest from rfl,
       ih fun z hz => h z (by simp [hz])]

theorem jsParseInt_digits {ds : List Char} (hne : ds ≠ [])
    (hall : ∀ c ∈ ds, c.isDigit = true) :
    jsParseInt ⟨ds⟩ = some (digitsToNat ds : Int) := by
  cases ds with
  | nil => exact absurd rfl hne
  | cons d tail =>
    have hd : d.isDigit = true := hall d (by simp)
    simp only [jsParseInt]
    rw [dropWhile_eq_self_of_none fun c hc => jsWS_of_isDigit (hall c hc)]
    simp only [signSplit, if_neg (isDigit_ne_dash hd), if_neg (isDigit_ne_plus hd)]
    rw [takeWhile_eq_self_of_all hall]
    simp

/-! ## Helper lemmas: upsert semantics -/

theorem mapGet_some_mem {κ α : Type} [DecidableEq κ] {m : List (κ × α)} {k : κ} {v : α}
    (h : mapGet m k = some v) : (k, v) ∈ m := by
  unfold mapGet at h
  rcases hf : m.find? fun p => p.1 = k with _ | e
  · rw [hf] at h; simp at h
  · rw [hf] at h
    replace h : e.2 = v := by simpa using h
    have hk := List.find?_some hf
    simp only [decide_eq_true_eq] at hk
    have hm := List.mem_of_find?_eq_some hf
    have he : e = (k, v) := by
      cases e
      rw [Prod.mk.injEq]
      exact ⟨hk, h⟩
    rw [← he]
    exact hm

theorem memBulk_single (st : MemState) (now : Nat) (item : InsertProductivityData)
    (hwf : MemWF st) :
    ∃ v : ProductivityRecord,
      mapGet (memBulkCreateProductivityData st now [item]).1.productivity
          (recKey item.contractorId item.month) = some v ∧
      v.contractorId = item.contractorId ∧ v.month = item.month ∧
      v.productiveHours = item.productiveHours ∧ v.totalHours = item.totalHours ∧
      v.productivity = item.productivity ∧ v.createdAt = now ∧
      MemWF (memBulkCreateProductivityData st now [item]).1 := by
  rcases hget : mapGet st.productivity (recKey item.contractorId item.month) with _ | existing
  · -- no record for the key: `createProductivityData` appends a fresh one
    simp only [memBulkCreateProductivityData, hget, memCreateProductivityData]
    refine ⟨_, mapGet_mapSet_self _ _ _, rfl, rfl, rfl, rfl, rfl, rfl, ?_, ?_⟩
    · exact mapSet_keys_nodup _ _ _ hwf.1
    · intro e he
      rcases mapSet_mem_or _ _ _ e he with rfl | hold
      · rfl
      · exact hwf.2 e hold
  · -- existing record: updated in place with refreshed timestamp
    have hmem : (recKey item.contractorId item.month, existing) ∈ st.productivity :=
      mapGet_some_mem hget
    have hkey := hwf.2 _ hmem
    have hpair := recKey_injective hkey.symm
    simp only [memBulkCreateProductivityData, hget]
    refine ⟨_, mapGet_mapSet_self _ _ _, hpair.1.symm ▸ rfl, hpair.2.symm ▸ rfl,
      rfl, rfl, rfl, rfl, ?_, ?_⟩
    · exact mapSet_keys_nodup _ _ _ hwf.1
    · intro e he
      rcases mapSet_mem_or _ _ _ e he with rfl | hold
      · show recKey item.contractorId item.month = recKey _ _
        rw [← hpair.1, ← hpair.2]
      · exact hwf.2 e hold

theorem recsForPair_of_wf (st : MemState) (hwf : MemWF st) (c : Int) (mo : String)
    (v : ProductivityRecord) (hv : mapGet st.productivity (recKey c mo) = some v) :
    recsForPair (st.productivity.map Prod.snd) c mo = [v] := by
  have hmem : (recKey c mo, v) ∈ st.productivity := mapGet_some_mem hv
  unfold recsForPair
  rw [List.filter_map]
  have hcongr :
      (st.productivity.filter
        ((fun r => decide (r.contractorId = c ∧ r.month = mo)) ∘ Prod.snd)) =
      st.productivity.filter fun e => decide (e.1 = (recKey c mo, v).1) := by
    apply List.filter_congr
    intro e he
    have hke := hwf.2 e he
    simp only [Function.comp_apply, decide_eq_decide]
    constructor
    · rintro ⟨h1, h2⟩
      rw [hke, h1, h2]
    · intro h1
      have h2 : recKey e.2.contractorId e.2.month = recKey c mo := by
        rw [← hke]; exact h1
      have h3 := recKey_injective h2
      exact ⟨h3.1, h3.2⟩
  rw [hcongr, filter_eq_singleton_of_nodup_keys Prod.fst st.productivity hwf.1 _ hmem]
  simp

theorem dbUpsert_props (st : DbState) (now : Nat) (item : InsertProductivityData)
    (hwf : DbWF st) :
    ∃ v : ProductivityRecord,
      recsForPair (dbUpsert st now item).1.productivity item.contractorId item.month = [v] ∧
      v.productiveHours = item.productiveHours ∧ v.totalHours = item.totalHours ∧
      v.productivity = item.productivity ∧ v.createdAt = now ∧
      DbWF (dbUpsert st now item).1 := by
  rcases hfind : st.productivity.find? fun r =>
      r.contractorId = item.contractorId ∧ r.month = item.month with _ | existing
  · -- no conflict: append a fresh row
    have hnone := List.find?_eq_none.mp hfind
    simp only [dbUpsert, hfind]
    refine ⟨{ uid := st.nextUid, contractorId := item.contractorId, month := item.month, productiveHours := item.productiveHours, totalHours := item.totalHours, productivity := item.productivity, createdAt := now }, ?_, rfl, rfl, rfl, rfl, ?_⟩
    · unfold recsForPair
      rw [List.filter_append]
      have h1 : st.productivity.filter
          (fun r => decide (r.contractorId = item.contractorId ∧ r.month = item.month)) = [] := by
        rw [List.filter_eq_nil_iff]
        exact hnone
      rw [h1]
      simp
    · unfold DbWF
      simp only [List.map_append, List.map_cons, List.map_nil]
      rw [List.nodup_append]
      refine ⟨hwf, by simp, ?_⟩
      intro p hp
      simp only [List.mem_singleton]
      rcases List.mem_map.mp hp with ⟨r, hr, hrp⟩
      intro hcontra
      apply hnone r hr
      rw [← hrp] at hcontra
      have h1 : r.contractorId = item.contractorId := congrArg Prod.fst hcontra
      have h2 : r.month = item.month := congrArg Prod.snd hcontra
      simp [h1, h2]
  · -- conflict: the matching row is updated in place
    have hpred := List.find?_some hfind
    simp only [decide_eq_true_eq] at hpred
    have hmem := List.mem_of_find?_eq_some hfind
    simp only [dbUpsert, hfind]
    have hpg : ∀ u : ProductivityRecord, u.contractorId = item.contractorId →
        u.month = item.month →
        ((fun r : ProductivityRecord =>
            decide (r.contractorId = item.contractorId ∧ r.month = item.month)) ∘
          fun r => if r.contractorId = item.contractorId ∧ r.month = item.month then u else r) =
        fun r : ProductivityRecord =>
          decide (r.contractorId = item.contractorId ∧ r.month = item.month) := by
      intro u hu1 hu2
      funext r
      by_cases h : r.contractorId = item.contractorId ∧ r.month = item.month
      · simp only [Function.comp_apply, if_pos h]
        simp [hu1, hu2, h]
      · simp only [Function.comp_apply, if_neg h]
    have hpairs : ∀ u : ProductivityRecord, u.contractorId = item.contractorId →
        u.month = item.month →
        ((fun r : ProductivityRecord => (r.contractorId, r.month)) ∘
          fun r => if r.contractorId = item.contractorId ∧ r.month = item.month then u else r) =
        fun r : ProductivityRecord => (r.contractorId, r.month) := by
      intro u hu1 hu2
      funext r
      by_cases h : r.contractorId = item.contractorId ∧ r.month = item.month
      · simp only [Function.comp_apply, if_pos h]
        simp [hu1, hu2, h.1, h.2]
      · simp only [Function.comp_apply, if_neg h]
    refine ⟨{ existing with productiveHours := item.productiveHours, totalHours := item.totalHours, productivity := item.productivity, createdAt := now }, ?_, rfl, rfl, rfl, rfl, ?_⟩
    · unfold recsForPair
      rw [List.filter_map, hpg { existing with productiveHours := item.productiveHours, totalHours := item.totalHours, productivity := item.productivity, createdAt := now } hpred.1 hpred.2]
      have hfil : st.productivity.filter
          (fun r => decide (r.contractorId = item.contractorId ∧ r.month = item.month)) =
          [existing] := by
        have hcongr : st.productivity.filter
            (fun r => decide (r.contractorId = item.contractorId ∧ r.month = item.month)) =
            st.productivity.filter fun r =>
              decide ((fun x => (x.contractorId, x.month)) r =
                (fun x : ProductivityRecord => (x.contractorId, x.month)) existing) := by
          apply List.filter_congr
          intro r _
          simp only [decide_eq_decide, Prod.mk.injEq, hpred.1, hpred.2]
        rw [hcongr]
        exact filter_eq_singleton_of_nodup_keys _ st.productivity hwf existing hmem
      rw [hfil]
      simp [hpred.1, hpred.2]
    · unfold DbWF
      rw [List.map_map, hpairs { existing with productiveHours := item.productiveHours, totalHours := item.totalHours, productivity := item.productivity, createdAt := now } hpred.1 hpred.2]
      exact hwf

theorem dbBulk_single_state (st : DbState) (now : Nat) (item : InsertProductivityData) :
    (dbBulkCreateProductivityData st now [item]).1 = (dbUpsert st now item).1 := by
  simp [dbBulkCreateProductivityData]

/-- Both productive-hours decoders on an `H:M:S`-shaped field (nonempty
digit groups): the value is `H + M/60 + S/3600`. -/
theorem parseHours_hms :
    ∀ (s : String) (d₁ d₂ d₃ : List Char),
      s.data = d₁ ++ ':' :: (d₂ ++ ':' :: d₃) →
      d₁ ≠ [] → d₂ ≠ [] → d₃ ≠ [] →
      (∀ c ∈ d₁, c.isDigit = true) → (∀ c ∈ d₂, c.isDigit = true) →
      (∀ c ∈ d₃, c.isDigit = true) →
      routesParseProductiveHours s =
        some ((digitsToNat d₁ : ℚ) + (digitsToNat d₂ : ℚ) / 60 + (digitsToNat d₃ : ℚ) / 3600) ∧
      csvParserParseProductiveHours s =
        (digitsToNat d₁ : ℚ) + (digitsToNat d₂ : ℚ) / 60 + (digitsToNat d₃ : ℚ) / 3600 := by
  intro s d₁ d₂ d₃ hs hne₁ hne₂ hne₃ hd₁ hd₂ hd₃
  have hnoWS : ∀ c ∈ s.data, jsWS c = false := by
    intro c hc
    rw [hs] at hc
    simp only [List.mem_append, List.mem_cons] at hc
    rcases hc with h | h | h
    · exact jsWS_of_isDigit (hd₁ c h)
    · subst h; decide
    · rcases h with h | h
      · exact jsWS_of_isDigit (hd₂ c h)
      · rcases h with h | h
        · subst h; decide
        · exact jsWS_of_isDigit (hd₃ c h)
  have hneS : s ≠ "" := by
    intro he
    have h0 : s.data = [] := congrArg String.data he
    rw [hs] at h0
    simp at h0
  have htrim : jsTrim s ≠ "" := by
    unfold jsTrim
    rw [trimChars_eq_self hnoWS]
    intro he
    have h0 : s.data = [] := congrArg String.data he
    rw [hs] at h0
    simp at h0
  have hmemColon : (':' : Char) ∈ s.data := by
    rw [hs]; simp
  have hcontains : s.data.contains ':' = true := List.elem_iff.mpr hmemColon
  have hsplit : splitOnC ':' s.data = [d₁, d₂, d₃] := by
    rw [hs, splitOnC_append fun c hc => isDigit_ne_colon (hd₁ c hc),
        splitOnC_append fun c hc => isDigit_ne_colon (hd₂ c hc),
        splitOnC_no_sep fun c hc => isDigit_ne_colon (hd₃ c hc)]
  have hp₁ := jsParseInt_digits hne₁ hd₁
  have hp₂ := jsParseInt_digits hne₂ hd₂
  have hp₃ := jsParseInt_digits hne₃ hd₃
  constructor
  · unfold routesParseProductiveHours
    rw [if_pos ⟨hneS, htrim, hcontains⟩]
    simp only [hsplit, List.map_cons, List.map_nil, hp₁, hp₂, hp₃]
    simp only [List.get?_cons_zero, List.get?_cons_succ]
    push_cast
    ring_nf
  · unfold csvParserParseProductiveHours
    rw [if_pos hcontains, hsplit]
    simp only [List.length_cons, List.length_nil]
    rw [if_pos (by omega)]
    simp only [List.getD_cons_zero, List.getD_cons_succ, hp₁, hp₂, hp₃]
    rw [if_pos (by omega)]
    simp only [List.getD_cons_zero, List.getD_cons_succ, hp₁, hp₂, hp₃,
      Option.getD_some]
    push_cast
    ring_nf

/-- A sample row for the validator: `"200:00:00"` re-derives to 200
productive hours, which exceeds 100 total hours. -/
theorem sample_hours_exceed : csvParserParseProductiveHours "200:00:00" > (100 : ℚ) := by
  have h := (parseHours_hms "200:00:00" ['2', '0', '0'] ['0', '0'] ['0', '0'] rfl
    (by decide) (by decide) (by decide) (by decide) (by decide) (by decide)).2
  rw [h]
  have e₁ : digitsToNat ['2', '0', '0'] = 200 := by decide
  have e₂ : digitsToNat ['0', '0'] = 0 := by decide
  rw [e₁, e₂]
  norm_num

/-- Evaluation rule for a two-element stable sort. -/
theorem mergeSort_pair {α : Type} (le : α → α → Bool) (a b : α) :
    [a, b].mergeSort le = if le a b then [a, b] else [b, a] := by
  simp [List.mergeSort, List.merge]

/-- The `validateEmployeeData` accumulator, characterized: the final list
is the concatenation of the per-row message lists, regardless of how many
rows fail. -/
theorem validateEmployeeDataAux_eq :
    ∀ (data : List CSVRow) (i : Nat) (acc : List String),
      validateEmployeeDataAux i data acc =
        acc ++ ((data.enumFrom i).map fun p => rowValidationErrors (p.1 + 2) p.2).flatten := by
  intro data
  induction data with
  | nil => intro i acc; simp [validateEmployeeDataAux, List.enumFrom]
  | cons row rest ih =>
    intro i acc
    simp only [validateEmployeeDataAux, List.enumFrom, List.map_cons, List.flatten_cons]
    rw [ih (i + 1) (acc ++ rowValidationErrors (i + 2) row), List.append_assoc]

/-! ## Claim theorems -/

/-- C10 (code evaluated at the failing input): the export escapers test
`/^[=+\-@\t]/` against the **trimmed** field, and `trim` removes tabs, so
a field that starts with a tab is returned without the neutralizing
single quote (both the server and the client escaper); the doc comments
of `escapeCsvField`/`escapeCsvValue` claim tab is neutralized.  The
remaining conjuncts show a `=`-leading field is prefixed and the export
starts with the BOM, as the claim states. -/
theorem c10_tab_not_neutralized :
    escapeCsvField "\tmalicious" = "\tmalicious" ∧
    escapeCsvValue "\tmalicious" = "\tmalicious" ∧
    dangerousStart "\tmalicious" = false ∧
    escapeCsvField "=SUM(A1)" = "'=SUM(A1)" ∧
    (generateCsv [["x"]]).data.take 1 = [bomChar] ∧
    (createCsvContent ["h"] [["x"]]).data.take 1 = [bomChar] := by
  decide

/-- C5 (counterexample): `"25-123"` is not of `DD-Mon` shape (its last
three characters are not letters), yet the month fixup rewrites it —
`\w` in `/^\d{2}-\w{3}$/` also matches digits and underscore, so the
claim's "every other shape passes through unchanged" is false. -/
theorem c5_counterexample :
    monthFix "25-123" = "123-25" ∧ monthFix "25-123" ≠ "25-123" ∧
    ¬ (∀ c ∈ "25-123".data.drop 3, c.isAlpha = true) := by
  decide

/-- C5 (amended): a month token of shape two digits, dash, three word
characters (`[A-Za-z0-9_]`, which includes every `DD-Mon` token) is
rewritten to `word-part ++ "-" ++ digit-part`; every token not matching
`/^\d{2}-\w{3}$/` passes through unchanged. -/
theorem c5_month_fix_amended :
    (∀ d₁ d₂ w₁ w₂ w₃ : Char, d₁.isDigit = true → d₂.isDigit = true →
      isWordChar w₁ = true → isWordChar w₂ = true → isWordChar w₃ = true →
      monthFix ⟨[d₁, d₂, '-', w₁, w₂, w₃]⟩ = ⟨[w₁, w₂, w₃, '-', d₁, d₂]⟩) ∧
    (∀ m : String, monthDDw3 m = false → monthFix m = m) := by
  constructor
  · intro d₁ d₂ w₁ w₂ w₃ h₁ h₂ h₃ h₄ h₅
    have hshape : monthDDw3 ⟨[d₁, d₂, '-', w₁, w₂, w₃]⟩ = true := by
      simp [monthDDw3, h₁, h₂, h₃, h₄, h₅]
    have hsplit : splitOnC '-' [d₁, d₂, '-', w₁, w₂, w₃] = [[d₁, d₂], [w₁, w₂, w₃]] := by
      rw [show [d₁, d₂, '-', w₁, w₂, w₃] = [d₁, d₂] ++ '-' :: [w₁, w₂, w₃] from rfl]
      rw [splitOnC_append]
      · rw [splitOnC_no_sep]
        intro c hc
        simp only [List.mem_cons, List.mem_singleton] at hc
        rcases hc with rfl | rfl | rfl | h
        · exact isWordChar_ne_dash h₃
        · exact isWordChar_ne_dash h₄
        · exact isWordChar_ne_dash h₅
        · simp at h
      · intro c hc
        simp only [List.mem_cons, List.mem_singleton] at hc
        rcases hc with rfl | rfl | h
        · exact isDigit_ne_dash h₁
        · exact isDigit_ne_dash h₂
        · simp at h
    unfold monthFix
    rw [if_pos hshape]
    show (⟨(splitOnC '-' [d₁, d₂, '-', w₁, w₂, w₃]).getD 1 [] ++
        '-' :: (splitOnC '-' [d₁, d₂, '-', w₁, w₂, w₃]).getD 0 []⟩ : String) = _
    rw [hsplit]
    rfl
  · intro m hm
    unfold monthFix
    rw [if_neg (by simp [hm])]

/-- C5 (witness): `"25-Aug"` becomes `"Aug-25"`, and a token of a
different shape passes through. -/
theorem c5_month_fix_witness :
    monthFix "25-Aug" = "Aug-25" ∧ monthFix "Aug-25" = "Aug-25" :=
  ⟨c5_month_fix_amended.1 '2' '5' 'A' 'u' 'g' (by decide) (by decide) (by decide)
      (by decide) (by decide),
   c5_month_fix_amended.2 "Aug-25" (by decide)⟩

/-- C6 (counterexample): the roster upload's header check accepts a
received header row with an extra trailing column (the claimed
equal-length requirement fails), and rejects lowercased-but-otherwise
correct headers that the claimed case-insensitive normalized comparison
accepts. -/
theorem c6_counterexample :
    rosterHeadersOk (expectedRosterHeaders ++ ["Extra"]) = true ∧
    headersMatch (expectedRosterHeaders ++ ["Extra"]) expectedRosterHeaders = false ∧
    rosterHeadersOk (expectedRosterHeaders.map jsLower) = false ∧
    headersMatch (expectedRosterHeaders.map jsLower) expectedRosterHeaders = true := by
  decide

/-- C6 (amended): the productivity upload compares headers
case-insensitively with whitespace runs collapsed, requiring equal length
and positional equality, and answers the roster-guidance error exactly
when those headers instead match the roster set; the roster upload
instead requires exact, case-sensitive equality at each expected index
and ignores any extra received columns. -/
theorem c6_header_matching_amended :
    (∀ hs : List String, productivityHeaderDecision hs = HeaderDecision.proceed ↔
      headersMatch hs expectedProductivityHeaders = true) ∧
    (∀ hs : List String, productivityHeaderDecision hs = HeaderDecision.guidanceRoster ↔
      (headersMatch hs expectedProductivityHeaders = false ∧
        headersMatch hs expectedRosterHeaders = true)) ∧
    (∀ hs : List String, productivityHeaderDecision hs = HeaderDecision.mismatch ↔
      (headersMatch hs expectedProductivityHeaders = false ∧
        headersMatch hs expectedRosterHeaders = false)) ∧
    (∀ r e : List String, headersMatch r e = true ↔
      (r.length = e.length ∧ ∀ i < e.length,
        normalizeHeader (r.getD i "") = normalizeHeader (e.getD i ""))) ∧
    (∀ hs : List String, rosterHeadersOk hs = true ↔
      ∀ p ∈ expectedRosterHeaders.enum, hs.get? p.1 = some p.2) := by
  refine ⟨?_, ?_, ?_, ?_, ?_⟩
  · intro hs
    unfold productivityHeaderDecision
    by_cases h1 : headersMatch hs expectedProductivityHeaders = true
    · simp [h1]
    · by_cases h2 : headersMatch hs expectedRosterHeaders = true <;> simp [h1, h2]
  · intro hs
    unfold productivityHeaderDecision
    by_cases h1 : headersMatch hs expectedProductivityHeaders = true
    · simp [h1]
    · by_cases h2 : headersMatch hs expectedRosterHeaders = true <;> simp [h1, h2]
  · intro hs
    unfold productivityHeaderDecision
    by_cases h1 : headersMatch hs expectedProductivityHeaders = true
    · simp [h1]
    · by_cases h2 : headersMatch hs expectedRosterHeaders = true <;> simp [h1, h2]
  · intro r e
    unfold headersMatch
    simp only [Bool.and_eq_true, List.all_eq_true, List.mem_range, decide_eq_true_eq]
  · intro hs
    unfold rosterHeadersOk
    simp only [List.all_eq_true, decide_eq_true_eq]

/-- C6 (witness): the exact expected header rows are accepted by their
respective checks. -/
theorem c6_header_matching_witness :
    productivityHeaderDecision expectedProductivityHeaders = HeaderDecision.proceed ∧
    rosterHeadersOk expectedRosterHeaders = true :=
  ⟨(c6_header_matching_amended.1 expectedProductivityHeaders).mpr (by decide),
   (c6_header_matching_amended.2.2.2.2 expectedRosterHeaders).mpr (by decide)⟩

/-- C4: a Productive Hours field of shape `H:M:S` (nonempty digit groups)
decodes, in both the upload handler and the client `CSVParser`, to
`H + M/60 + S/3600`; a colon-free nonempty field is parsed as a decimal
(`parseFloat`, unparseable giving 0); an empty field decodes to 0; and in
particular `"114:39:00"` decodes to `114.65 = 2293/20`. -/
theorem c4_productive_hours_decoding :
    (∀ (s : String) (d₁ d₂ d₃ : List Char),
      s.data = d₁ ++ ':' :: (d₂ ++ ':' :: d₃) →
      d₁ ≠ [] → d₂ ≠ [] → d₃ ≠ [] →
      (∀ c ∈ d₁, c.isDigit = true) → (∀ c ∈ d₂, c.isDigit = true) →
      (∀ c ∈ d₃, c.isDigit = true) →
      routesParseProductiveHours s =
        some ((digitsToNat d₁ : ℚ) + (digitsToNat d₂ : ℚ) / 60 + (digitsToNat d₃ : ℚ) / 3600) ∧
      csvParserParseProductiveHours s =
        (digitsToNat d₁ : ℚ) + (digitsToNat d₂ : ℚ) / 60 + (digitsToNat d₃ : ℚ) / 3600) ∧
    (∀ s : String, s.data.contains ':' = false → s ≠ "" → jsTrim s ≠ "" →
      routesParseProductiveHours s = some (orZero (jsParseFloat s)) ∧
      csvParserParseProductiveHours s = orZero (jsParseFloat s)) ∧
    routesParseProductiveHours "" = some 0 ∧
    csvParserParseProductiveHours "" = 0 ∧
    routesParseProductiveHours "114:39:00" = some (2293 / 20 : ℚ) ∧
    csvParserParseProductiveHours "114:39:00" = (2293 / 20 : ℚ) := by
  refine ⟨parseHours_hms, ?_, by decide, by decide, ?_, ?_⟩
  · intro s hc hne htrim
    constructor
    · unfold routesParseProductiveHours
      rw [if_neg (by simp only [hc]; simp), if_pos ⟨hne, htrim⟩]
    · unfold csvParserParseProductiveHours
      rw [if_neg (by simp only [hc]; simp)]
  · have h := (parseHours_hms "114:39:00" ['1', '1', '4'] ['3', '9'] ['0', '0'] rfl (by decide)
      (by decide) (by decide) (by decide) (by decide) (by decide)).1
    rw [h]
    have e₁ : digitsToNat ['1', '1', '4'] = 114 := by decide
    have e₂ : digitsToNat ['3', '9'] = 39 := by decide
    have e₃ : digitsToNat ['0', '0'] = 0 := by decide
    rw [e₁, e₂, e₃]
    norm_num
  · have h := (parseHours_hms "114:39:00" ['1', '1', '4'] ['3', '9'] ['0', '0'] rfl (by decide)
      (by decide) (by decide) (by decide) (by decide) (by decide)).2
    rw [h]
    have e₁ : digitsToNat ['1', '1', '4'] = 114 := by decide
    have e₂ : digitsToNat ['3', '9'] = 39 := by decide
    have e₃ : digitsToNat ['0', '0'] = 0 := by decide
    rw [e₁, e₂, e₃]
    norm_num

/-- C4 (witness): concrete instances of the three clauses. -/
theorem c4_productive_hours_witness :
    routesParseProductiveHours "114:39:00" =
      some ((digitsToNat ['1', '1', '4'] : ℚ) + (digitsToNat ['3', '9'] : ℚ) / 60 +
        (digitsToNat ['0', '0'] : ℚ) / 3600) ∧
    csvParserParseProductiveHours "12.5" = orZero (jsParseFloat "12.5") ∧
    routesParseProductiveHours "abc" = some (orZero (jsParseFloat "abc")) :=
  ⟨(c4_productive_hours_decoding.1 "114:39:00" ['1', '1', '4'] ['3', '9'] ['0', '0']
      rfl (by decide) (by decide) (by decide) (by decide) (by decide) (by decide)).1,
   (c4_productive_hours_decoding.2.1 "12.5" (by decide) (by decide) (by decide)).2,
   (c4_productive_hours_decoding.2.1 "abc" (by decide) (by decide) (by decide)).1⟩

/-- C8: the standalone validator returns, for every list of parsed rows,
exactly the concatenation of the per-row per-rule messages — it never
halts at the first error (and, being a pure function of the rows, leaves
them unchanged); each row contributes one message per violated rule; and
a row whose re-derived productive-hours decimal exceeds its total hours
contributes the message reporting both formatted values. -/
theorem c8_validator_accumulates :
    (∀ data : List CSVRow, validateEmployeeData data =
      ((data.enum.map fun p => rowValidationErrors (p.1 + 2) p.2).flatten)) ∧
    (∀ (n : Nat) (row : CSVRow), (rowValidationErrors n row).length =
      ((if row.empNo < 1 ∨ row.empNo > 999 then 1 else 0) +
        (if ¬ validMonths.contains (monthAbbr row.month) then 1 else 0) +
        (if row.productivity < 0 ∨ row.productivity > 100 then 1 else 0) +
        (if row.hours < 0 then 1 else 0) +
        (if csvParserParseProductiveHours row.productiveHours > row.hours then 1 else 0))) ∧
    (∀ (n : Nat) (row : CSVRow),
      csvParserParseProductiveHours row.productiveHours > row.hours →
      ("Row " ++ Nat.repr n ++ ": Productive hours (" ++
          toFixed2 (csvParserParseProductiveHours row.productiveHours) ++
          ") cannot exceed total hours (" ++ qToString row.hours ++ ")") ∈
        rowValidationErrors n row) := by
  refine ⟨?_, ?_, ?_⟩
  · intro data
    unfold validateEmployeeData
    rw [validateEmployeeDataAux_eq data 0 []]
    rfl
  · intro n row
    unfold rowValidationErrors
    split <;> split <;> split <;> split <;> split <;> simp
  · intro n row h
    unfold rowValidationErrors
    rw [if_pos h]
    simp

/-- C8 (witness): a row whose re-derived hours exceed its total hours
yields the message with both values. -/
theorem c8_validator_witness :
    ("Row " ++ Nat.repr 2 ++ ": Productive hours (" ++
        toFixed2 (csvParserParseProductiveHours "200:00:00") ++
        ") cannot exceed total hours (" ++
        qToString (⟨1, "A", "Aug-25", "200:00:00", 100, 50⟩ : CSVRow).hours ++ ")") ∈
      rowValidationErrors 2 ⟨1, "A", "Aug-25", "200:00:00", 100, 50⟩ :=
  c8_validator_accumulates.2.2 2 ⟨1, "A", "Aug-25", "200:00:00", 100, 50⟩ sample_hours_exceed

/-- C9: archiving a contractor, in both backends, leaves the
productivity store untouched and every other contractor unchanged; the
archived contractor afterwards reads with status `archived`, and
archiving again keeps it archived; archiving a nonexistent contractor
returns `false` and changes nothing. -/
theorem c9_archive_frame :
    (∀ (st : MemState) (i : Int) (c : Contractor), memGetContractor st i = some c →
      (memArchiveContractor st i).2 = true ∧
      (memArchiveContractor st i).1.productivity = st.productivity ∧
      memGetContractor (memArchiveContractor st i).1 i = some { c with status := "archived" } ∧
      (∀ j, j ≠ i → memGetContractor (memArchiveContractor st i).1 j = memGetContractor st j) ∧
      memGetContractor (memArchiveContractor (memArchiveContractor st i).1 i).1 i =
        some { c with status := "archived" }) ∧
    (∀ (st : MemState) (i : Int), memGetContractor st i = none →
      memArchiveContractor st i = (st, false)) ∧
    (∀ (st : DbState) (i : Int),
      (dbArchiveContractor st i).1.productivity = st.productivity ∧
      ((dbArchiveContractor st i).2 = true ↔ ∃ c ∈ st.contractors, c.id = i) ∧
      (∀ j, j ≠ i → dbGetContractor (dbArchiveContractor st i).1 j = dbGetContractor st j) ∧
      (∀ c, dbGetContractor st i = some c →
        dbGetContractor (dbArchiveContractor st i).1 i = some { c with status := "archived" }) ∧
      (dbGetContractor st i = none →
        (dbArchiveContractor st i).1.contractors = st.contractors)) := by
  refine ⟨?_, ?_, ?_⟩
  · intro st i c hget
    unfold memGetContractor at hget
    have step : ∀ (st' : MemState) (c' : Contractor), mapGet st'.contractors i = some c' →
        memArchiveContractor st' i =
          ({ st' with contractors := mapSet st'.contractors i { c' with status := "archived" } },
            true) := by
      intro st' c' hg
      unfold memArchiveContractor
      rw [hg]
    have harch := step st c hget
    have hself :
        memGetContractor (memArchiveContractor st i).1 i = some { c with status := "archived" } := by
      show mapGet (memArchiveContractor st i).1.contractors i = _
      rw [harch]
      exact mapGet_mapSet_self _ _ _
    refine ⟨by rw [harch], by rw [harch], hself, ?_, ?_⟩
    · intro j hj
      show mapGet (memArchiveContractor st i).1.contractors j = mapGet st.contractors j
      rw [harch]
      exact mapGet_mapSet_ne _ _ _ _ hj
    · have harch₂ := step (memArchiveContractor st i).1 { c with status := "archived" } hself
      show mapGet (memArchiveContractor (memArchiveContractor st i).1 i).1.contractors i = _
      rw [harch₂]
      exact mapGet_mapSet_self _ _ _
  · intro st i hget
    unfold memGetContractor at hget
    unfold memArchiveContractor
    rw [hget]
  · intro st i
    have hid : ∀ a : Contractor,
        (decide ((if a.id = i then { a with status := "archived" } else a).id = i)) =
          decide (a.id = i) := by
      intro a
      by_cases h : a.id = i <;> simp [h]
    refine ⟨rfl, ?_, ?_, ?_, ?_⟩
    · show (decide (0 < st.contractors.countP fun c => c.id = i)) = true ↔ _
      rw [decide_eq_true_eq]
      constructor
      · intro h
        rcases List.countP_pos_iff.mp h with ⟨a, ha, hpa⟩
        exact ⟨a, ha, by simpa using hpa⟩
      · rintro ⟨a, ha, hpa⟩
        exact List.countP_pos_iff.mpr ⟨a, ha, by simpa using hpa⟩
    · intro j hj
      show List.find? _ (st.contractors.map _) = _
      rw [List.find?_map]
      have hcomp : ((fun c : Contractor => decide (c.id = j)) ∘
          fun c => if c.id = i then { c with status := "archived" } else c) =
          fun c : Contractor => decide (c.id = j) := by
        funext a
        by_cases h : a.id = i <;> simp [h]
      rw [hcomp]
      unfold dbGetContractor
      rcases hfind : st.contractors.find? fun c => c.id = j with _ | e
      · rw [hfind]
        rfl
      · rw [hfind]
        have he := List.find?_some hfind
        simp only [decide_eq_true_eq] at he
        have hne : ¬ (e.id = i) := by rw [he]; exact hj
        show Option.map _ (some e) = some e
        simp [hne]
    · intro c hget
      show List.find? _ (st.contractors.map _) = _
      rw [List.find?_map]
      have hcomp : ((fun c : Contractor => decide (c.id = i)) ∘
          fun c => if c.id = i then { c with status := "archived" } else c) =
          fun c : Contractor => decide (c.id = i) := by
        funext a
        by_cases h : a.id = i <;> simp [h]
      rw [hcomp]
      unfold dbGetContractor at hget
      rw [hget]
      have hc := List.find?_some hget
      simp only [decide_eq_true_eq] at hc
      show some (if c.id = i then _ else c) = _
      rw [if_pos hc]
    · intro hget
      unfold dbGetContractor at hget
      have hnone := List.find?_eq_none.mp hget
      show st.contractors.map _ = st.contractors
      rw [List.map_congr_left, List.map_id]
      intro a ha
      have : ¬ (a.id = i) := by simpa using hnone a ha
      simp [this]

/-- C9 (witness): archiving an existing and a missing contractor in a
concrete two-contractor store. -/
theorem c9_archive_witness :
    memGetContractor (memArchiveContractor c1Store 1).1 1 =
      some { sampleContractor 1 "A" with status := "archived" } ∧
    memArchiveContractor c1Store 99 = (c1Store, false) :=
  ⟨((c9_archive_frame.1 c1Store 1 (sampleContractor 1 "A") (by decide)).2.2).1,
   c9_archive_frame.2.1 c1Store 99 (by decide)⟩

/-- C3: upserting two records with the same (contractorId, month), in
either backend, leaves exactly one stored record for that pair — holding
the second write's hours, total hours and productivity, with the second
write's timestamp — and preserves the at-most-one-record-per-pair
invariant (`MemWF` / `DbWF`). -/
theorem c3_upsert_last_write_wins :
    (∀ (st : MemState) (t₁ t₂ : Nat) (i₁ i₂ : InsertProductivityData),
      MemWF st → i₁.contractorId = i₂.contractorId → i₁.month = i₂.month →
      MemWF (memBulkCreateProductivityData
          (memBulkCreateProductivityData st t₁ [i₁]).1 t₂ [i₂]).1 ∧
      (recsForPair ((memBulkCreateProductivityData
            (memBulkCreateProductivityData st t₁ [i₁]).1 t₂ [i₂]).1.productivity.map Prod.snd)
          i₂.contractorId i₂.month).map
        (fun r => (r.productiveHours, r.totalHours, r.productivity, r.createdAt)) =
        [(i₂.productiveHours, i₂.totalHours, i₂.productivity, t₂)]) ∧
    (∀ (st : DbState) (t₁ t₂ : Nat) (i₁ i₂ : InsertProductivityData),
      DbWF st → i₁.contractorId = i₂.contractorId → i₁.month = i₂.month →
      DbWF (dbBulkCreateProductivityData
          (dbBulkCreateProductivityData st t₁ [i₁]).1 t₂ [i₂]).1 ∧
      (recsForPair (dbBulkCreateProductivityData
            (dbBulkCreateProductivityData st t₁ [i₁]).1 t₂ [i₂]).1.productivity
          i₂.contractorId i₂.month).map
        (fun r => (r.productiveHours, r.totalHours, r.productivity, r.createdAt)) =
        [(i₂.productiveHours, i₂.totalHours, i₂.productivity, t₂)]) := by
  constructor
  · intro st t₁ t₂ i₁ i₂ hwf _ _
    obtain ⟨v₁, _, _, _, _, _, _, _, hwf₁⟩ := memBulk_single st t₁ i₁ hwf
    obtain ⟨v₂, hget₂, hc₂, hm₂, hph₂, hth₂, hp₂, hts₂, hwf₂⟩ :=
      memBulk_single (memBulkCreateProductivityData st t₁ [i₁]).1 t₂ i₂ hwf₁
    refine ⟨hwf₂, ?_⟩
    rw [recsForPair_of_wf _ hwf₂ i₂.contractorId i₂.month v₂ hget₂]
    simp [hph₂, hth₂, hp₂, hts₂]
  · intro st t₁ t₂ i₁ i₂ hwf _ _
    have hwf₁ : DbWF (dbBulkCreateProductivityData st t₁ [i₁]).1 := by
      rw [dbBulk_single_state]
      obtain ⟨v₁, _, _, _, _, _, h⟩ := dbUpsert_props st t₁ i₁ hwf
      exact h
    obtain ⟨v₂, hpair₂, hph₂, hth₂, hp₂, hts₂, hwf₂⟩ :=
      dbUpsert_props (dbBulkCreateProductivityData st t₁ [i₁]).1 t₂ i₂ hwf₁
    rw [dbBulk_single_state]
    refine ⟨hwf₂, ?_⟩
    rw [hpair₂]
    simp [hph₂, hth₂, hp₂, hts₂]

theorem uploadCsv_proceed (st : DbState) (now : Nat) (content : String)
    (h2 : 2 ≤ (splitLines content).length)
    (hh : productivityHeaderDecision
        ((parseCSVLine ((splitLines content).getD 0 "")).map cleanHeader) = .proceed) :
    uploadCsv st now content =
      if (processRows st 0 ((splitLines content).drop 1)).2 ≠ [] ∧
          (processRows st 0 ((splitLines content).drop 1)).1 = [] then
        (.failed ((processRows st 0 ((splitLines content).drop 1)).2.take 10), st)
      else
        (.success (dbBulkCreateProductivityData st now
            (processRows st 0 ((splitLines content).drop 1)).1).2.length
          ((processRows st 0 ((splitLines content).drop 1)).2.take 10),
         (dbBulkCreateProductivityData st now
           (processRows st 0 ((splitLines content).drop 1)).1).1) := by
  have hlt : ¬ ((splitLines content).length < 2) := by omega
  simp only [uploadCsv]
  rw [if_neg hlt, hh]

/-- C7 (counterexample): with a blank physical line between the header
and the only data row, the failing data row sits on physical line 3 of
the original file (0-based index 2 of the raw split; index 1 is the
blank line), yet its error message says `Row 2` — row numbers are
relative to the blank-line-filtered line list, not to the original
file. -/
theorem c7_counterexample :
    uploadCsv c7Store 0 c7Content =
      (.failed ["Row 2: Contractor 99 (X) not found in roster"], c7Store) ∧
    (jsSplit c7Content '\n').getD 2 "" = "99,X,Aug-25,10,10,50" ∧
    (jsSplit c7Content '\n').getD 1 "" = "" ∧
    (jsSplit c7Content '\n').length = 3 := by
  refine ⟨by decide, by decide, by decide, by decide⟩

/-- C7 (amended): data-row parse failures are per-row and non-fatal —
each failing row contributes one `Row n:`-prefixed error message and is
excluded, every row contributes to exactly one of the two output lists,
the upload fails with the first 10 errors when no row succeeded, and
otherwise answers with the processed count and the first 10 errors.  The
row number `n` is the row's 1-based position among the
blank-line-filtered lines plus one (header = row 1), not its position in
the original file. -/
theorem c7_row_errors (st : DbState) (now : Nat) (content : String)
    (h2 : 2 ≤ (splitLines content).length)
    (hh : productivityHeaderDecision
        ((parseCSVLine ((splitLines content).getD 0 "")).map cleanHeader) = .proceed) :
    (processRows st 0 ((splitLines content).drop 1)).1 =
      (((splitLines content).drop 1).enumFrom 0).filterMap
        (fun p => okPart (parseProductivityRow st (p.1 + 2) p.2)) ∧
    (processRows st 0 ((splitLines content).drop 1)).2 =
      (((splitLines content).drop 1).enumFrom 0).filterMap
        (fun p => errPart (parseProductivityRow st (p.1 + 2) p.2)) ∧
    ((splitLines content).drop 1).length =
      (processRows st 0 ((splitLines content).drop 1)).1.length +
        (processRows st 0 ((splitLines content).drop 1)).2.length ∧
    (∀ e ∈ (processRows st 0 ((splitLines content).drop 1)).2,
      ∃ n msg, 2 ≤ n ∧ e = rowError n msg) ∧
    ((processRows st 0 ((splitLines content).drop 1)).2 ≠ [] ∧
        (processRows st 0 ((splitLines content).drop 1)).1 = [] →
      uploadCsv st now content =
        (.failed ((processRows st 0 ((splitLines content).drop 1)).2.take 10), st)) ∧
    (¬ ((processRows st 0 ((splitLines content).drop 1)).2 ≠ [] ∧
        (processRows st 0 ((splitLines content).drop 1)).1 = []) →
      uploadCsv st now content =
        (.success (processRows st 0 ((splitLines content).drop 1)).1.length
          ((processRows st 0 ((splitLines content).drop 1)).2.take 10),
         (dbBulkCreateProductivityData st now
           (processRows st 0 ((splitLines content).drop 1)).1).1)) := by
  have heq := processRows_eq st ((splitLines content).drop 1) 0
  refine ⟨by rw [heq], by rw [heq], processRows_length st _ 0, ?_, ?_, ?_⟩
  · intro e he
    rw [heq] at he
    rcases List.mem_filterMap.mp he with ⟨p, _, hf⟩
    rcases herr : parseProductivityRow st (p.1 + 2) p.2 with msg | d
    · rw [herr] at hf
      simp only [errPart, Option.some.injEq] at hf
      obtain ⟨m, hm⟩ := parseProductivityRow_error_shape st (p.1 + 2) p.2 msg herr
      exact ⟨p.1 + 2, m, by omega, by rw [← hf]; exact hm⟩
    · rw [herr] at hf
      simp [errPart] at hf
  · intro hcond
    rw [uploadCsv_proceed st now content h2 hh, if_pos hcond]
  · intro hcond
    rw [uploadCsv_proceed st now content h2 hh, if_neg hcond, dbBulk_length]

/-- C7 (witness): a well-formed single-row upload satisfies the
hypotheses and takes the success branch. -/
theorem c7_row_errors_witness :
    2 ≤ (splitLines c7GoodContent).length ∧
    (¬ ((processRows c7Store 0 ((splitLines c7GoodContent).drop 1)).2 ≠ [] ∧
        (processRows c7Store 0 ((splitLines c7GoodContent).drop 1)).1 = []) →
      uploadCsv c7Store 0 c7GoodContent =
        (.success (processRows c7Store 0 ((splitLines c7GoodContent).drop 1)).1.length
          ((processRows c7Store 0 ((splitLines c7GoodContent).drop 1)).2.take 10),
         (dbBulkCreateProductivityData c7Store 0
           (processRows c7Store 0 ((splitLines c7GoodContent).drop 1)).1).1)) :=
  ⟨by decide,
   (c7_row_errors c7Store 0 c7GoodContent (by decide) (by decide)).2.2.2.2.2⟩

/-- C3 (witness): two writes for contractor 7, month `Aug-25`, into the
empty in-memory and database stores. -/
theorem c3_upsert_witness :
    (recsForPair ((memBulkCreateProductivityData
          (memBulkCreateProductivityData ⟨[], [], 0⟩ 5
            [⟨7, "Aug-25", 10, 12, 80⟩]).1 9 [⟨7, "Aug-25", 11, 13, 90⟩]).1.productivity.map
        Prod.snd) 7 "Aug-25").map
      (fun r => (r.productiveHours, r.totalHours, r.productivity, r.createdAt)) =
      [((11 : ℚ), (13 : ℚ), (90 : ℚ), 9)] ∧
    (recsForPair (dbBulkCreateProductivityData
          (dbBulkCreateProductivityData ⟨[], [], 0⟩ 5
            [⟨7, "Aug-25", 10, 12, 80⟩]).1 9 [⟨7, "Aug-25", 11, 13, 90⟩]).1.productivity
        7 "Aug-25").map
      (fun r => (r.productiveHours, r.totalHours, r.productivity, r.createdAt)) =
      [((11 : ℚ), (13 : ℚ), (90 : ℚ), 9)] :=
  ⟨(c3_upsert_last_write_wins.1 ⟨[], [], 0⟩ 5 9 ⟨7, "Aug-25", 10, 12, 80⟩
      ⟨7, "Aug-25", 11, 13, 90⟩ (by constructor <;> simp [MemWF]) rfl rfl).2,
   (c3_upsert_last_write_wins.2 ⟨[], [], 0⟩ 5 9 ⟨7, "Aug-25", 10, 12, 80⟩
      ⟨7, "Aug-25", 11, 13, 90⟩ (by simp [DbWF]) rfl rfl).2⟩

/-- C1 (counterexample): in the in-memory backend, two August records
with tied hours keep their insertion order — the record with the LOWER
productivity percentage (50) is ranked 1 and the record with the higher
percentage (90) is ranked 2, so ties are not broken by productivity
descending as claimed. -/
theorem c1_counterexample :
    (memGetMonthlyRankings c1Store "Aug-25").map
        (fun r => (r.contractorId, r.rank, r.hours)) = [(1, 1, 10), (2, 2, 10)] ∧
    (mapGet c1Store.productivity (recKey 1 "Aug-25")).map ProductivityRecord.productivity =
      some 50 ∧
    (mapGet c1Store.productivity (recKey 2 "Aug-25")).map ProductivityRecord.productivity =
      some 90 ∧
    ((50 : ℚ) < 90) := by
  refine ⟨?_, by decide, by decide, by norm_num⟩
  have hunfold : memGetMonthlyRankings c1Store "Aug-25" =
      ((((memGetProductivityDataByMonth c1Store "Aug-25").map
          (memRankingEntry (memGetAllContractors c1Store) "Aug-25")).mergeSort
          (fun a b => decide (b.hours ≤ a.hours))).enumFrom 0).map
        (fun p => { p.2 with rank := p.1 + 1 }) := rfl
  have hpre : (memGetProductivityDataByMonth c1Store "Aug-25").map
      (memRankingEntry (memGetAllContractors c1Store) "Aug-25") =
      [{ contractorId := 1, name := "A", hours := 10, month := "Aug-25", rank := 0 },
       { contractorId := 2, name := "B", hours := 10, month := "Aug-25", rank := 0 }] := by
    decide
  rw [hunfold, hpre, mergeSort_pair]
  norm_num [List.enumFrom]

/-- C1 (amended): both backends return a permutation of the month's
(joined) records and assign dense 1-based ranks `1..N` in output order,
so tied records still receive distinct sequential ranks; both backends
order by hours descending — but only the database backend additionally
breaks hours ties by productivity descending (`dbRankLE`); the in-memory
backend sorts by hours only, keeping insertion order on ties (see the
counterexample). -/
theorem c1_ranking_amended :
    (∀ (st : MemState) (mo : String),
      ((memGetMonthlyRankings st mo).map (fun r => (r.contractorId, r.hours))).Perm
        ((memGetProductivityDataByMonth st mo).map
          (fun d => (d.contractorId, d.productiveHours))) ∧
      (memGetMonthlyRankings st mo).Pairwise (fun a b => b.hours ≤ a.hours) ∧
      (memGetMonthlyRankings st mo).map MonthlyRanking.rank =
        List.range' 1 (memGetMonthlyRankings st mo).length) ∧
    (∀ (st : DbState) (mo : String),
      ((dbGetMonthlyRankings st mo).map (fun r => (r.contractorId, r.hours))).Perm
        ((dbRankingRows st mo).map (fun p => (p.1.contractorId, p.1.productiveHours))) ∧
      (dbRankingSorted st mo).Pairwise (fun a b => dbRankLE a b = true) ∧
      (dbGetMonthlyRankings st mo).Pairwise (fun a b => b.hours ≤ a.hours) ∧
      (dbGetMonthlyRankings st mo).map MonthlyRanking.rank =
        List.range' 1 (dbGetMonthlyRankings st mo).length) := by
  constructor
  · intro st mo
    have hunfold : memGetMonthlyRankings st mo =
        ((((memGetProductivityDataByMonth st mo).map
            (memRankingEntry (memGetAllContractors st) mo)).mergeSort
            (fun a b => decide (b.hours ≤ a.hours))).enumFrom 0).map
          (fun p => { p.2 with rank := p.1 + 1 }) := rfl
    have hsorted : (((memGetProductivityDataByMonth st mo).map
        (memRankingEntry (memGetAllContractors st) mo)).mergeSort
        (fun a b => decide (b.hours ≤ a.hours))).Pairwise
        (fun a b => (fun a b : MonthlyRanking => decide (b.hours ≤ a.hours)) a b = true) :=
      List.sorted_mergeSort memDescLE_trans memDescLE_total _
    refine ⟨?_, ?_, ?_⟩
    · have hproj := proj_of_enum_map
          (fun p : Nat × MonthlyRanking => { p.2 with rank := p.1 + 1 })
          (fun r : MonthlyRanking => (r.contractorId, r.hours))
          (fun e : MonthlyRanking => (e.contractorId, e.hours)) (fun p => rfl)
          (((memGetProductivityDataByMonth st mo).map
            (memRankingEntry (memGetAllContractors st) mo)).mergeSort
            (fun a b => decide (b.hours ≤ a.hours))) 0
      rw [hunfold, hproj]
      have hp := (List.mergeSort_perm ((memGetProductivityDataByMonth st mo).map
          (memRankingEntry (memGetAllContractors st) mo))
          (fun a b => decide (b.hours ≤ a.hours))).map
          (fun e : MonthlyRanking => (e.contractorId, e.hours))
      refine hp.trans ?_
      rw [List.map_map]
      exact List.Perm.rfl
    · rw [hunfold]
      refine pairwise_of_sorted_enum (fun p => { p.2 with rank := p.1 + 1 })
        (fun a b => b.hours ≤ a.hours) ?_ hsorted 0
      intro i a j b hab
      show b.hours ≤ a.hours
      exact of_decide_eq_true hab
    · have hranks := ranks_of_enum_map
          (fun p : Nat × MonthlyRanking => { p.2 with rank := p.1 + 1 })
          (fun p => rfl)
          (((memGetProductivityDataByMonth st mo).map
            (memRankingEntry (memGetAllContractors st) mo)).mergeSort
            (fun a b => decide (b.hours ≤ a.hours))) 0
      rw [hunfold, hranks]
      simp
  · intro st mo
    have hunfold : dbGetMonthlyRankings st mo =
        ((dbRankingSorted st mo).enumFrom 0).map
          (fun p => { contractorId := p.2.1.contractorId, name := p.2.2.name, hours := p.2.1.productiveHours, month := p.2.1.month, rank := p.1 + 1 }) := rfl
    have hsorted : (dbRankingSorted st mo).Pairwise (fun a b => dbRankLE a b = true) :=
      List.sorted_mergeSort dbRankLE_trans dbRankLE_total _
    refine ⟨?_, hsorted, ?_, ?_⟩
    · have hproj := proj_of_enum_map
          (fun p : Nat × (ProductivityRecord × Contractor) => ({ contractorId := p.2.1.contractorId, name := p.2.2.name, hours := p.2.1.productiveHours, month := p.2.1.month, rank := p.1 + 1 } : MonthlyRanking))
          (fun r : MonthlyRanking => (r.contractorId, r.hours))
          (fun p : ProductivityRecord × Contractor => (p.1.contractorId, p.1.productiveHours))
          (fun p => rfl) (dbRankingSorted st mo) 0
      rw [hunfold, hproj]
      exact (List.mergeSort_perm (dbRankingRows st mo) dbRankLE).map
        (fun p : ProductivityRecord × Contractor => (p.1.contractorId, p.1.productiveHours))
    · rw [hunfold]
      refine pairwise_of_sorted_enum
        (fun p => { contractorId := p.2.1.contractorId, name := p.2.2.name, hours := p.2.1.productiveHours, month := p.2.1.month, rank := p.1 + 1 })
        (fun a b => b.hours ≤ a.hours) ?_ hsorted 0
      intro i a j b hab
      show b.1.productiveHours ≤ a.1.productiveHours
      simp only [dbRankLE, Bool.or_eq_true, Bool.and_eq_true, decide_eq_true_eq] at hab
      rcases hab with h | ⟨h, _⟩
      · exact le_of_lt h
      · exact le_of_eq h.symm
    · have hranks := ranks_of_enum_map
          (fun p : Nat × (ProductivityRecord × Contractor) => ({ contractorId := p.2.1.contractorId, name := p.2.2.name, hours := p.2.1.productiveHours, month := p.2.1.month, rank := p.1 + 1 } : MonthlyRanking))
          (fun p => rfl) (dbRankingSorted st mo) 0
      rw [hunfold, hranks]
      simp

/-- C1 (witness): the amended ranking facts, instantiated at the
concrete tied-hours store. -/
theorem c1_ranking_witness :
    (memGetMonthlyRankings c1Store "Aug-25").map MonthlyRanking.rank =
      List.range' 1 (memGetMonthlyRankings c1Store "Aug-25").length :=
  (c1_ranking_amended.1 c1Store "Aug-25").2.2

/-- C2 (counterexample): in the in-memory backend, two full-time August
under-performers with tied hours (40 < 100) keep their insertion order —
the record with the LOWER productivity percentage (60) is ranked 1 and
the record with the higher percentage (95) is ranked 2, so ties are not
broken by productivity descending as claimed. -/
theorem c2_counterexample :
    (memGetUnderPerformers c2Store "Aug-25").map
        (fun r => (r.contractorId, r.rank, r.hours)) = [(1, 1, 40), (2, 2, 40)] ∧
    (mapGet c2Store.productivity (recKey 1 "Aug-25")).map ProductivityRecord.productivity =
      some 60 ∧
    (mapGet c2Store.productivity (recKey 2 "Aug-25")).map ProductivityRecord.productivity =
      some 95 ∧
    ((60 : ℚ) < 95) := by
  refine ⟨?_, by decide, by decide, by norm_num⟩
  have hunfold : memGetUnderPerformers c2Store "Aug-25" =
      (((((memGetProductivityDataByMonth c2Store "Aug-25").filter
          (memUnderFilter (memGetAllContractors c2Store))).map
          (memRankingEntry (memGetAllContractors c2Store) "Aug-25")).mergeSort
          (fun a b => decide (a.hours ≤ b.hours))).enumFrom 0).map
        (fun p => { p.2 with rank := p.1 + 1 }) := rfl
  have hpre : ((memGetProductivityDataByMonth c2Store "Aug-25").filter
      (memUnderFilter (memGetAllContractors c2Store))).map
      (memRankingEntry (memGetAllContractors c2Store) "Aug-25") =
      [{ contractorId := 1, name := "A", hours := 40, month := "Aug-25", rank := 0 },
       { contractorId := 2, name := "B", hours := 40, month := "Aug-25", rank := 0 }] := by
    decide
  rw [hunfold, hpre, mergeSort_pair]
  norm_num [List.enumFrom]

/-- C2 (amended): the under-performer filters admit exactly the records
with strictly positive hours below the type threshold (the in-memory
backend gives every non-`'Part Time'` type the 100 threshold, the
database backend requires `'Full Time'` or `'Part Time'`); zero-hour
records are never returned; both backends sort ascending by hours and
assign dense 1-based ranks within the filtered subset — but only the
database backend breaks hours ties by productivity descending
(`dbUnderLE`); the in-memory backend sorts by hours only, keeping
insertion order on ties (see the counterexample). -/
theorem c2_under_performers_amended :
    (∀ (cs : List Contractor) (d : ProductivityRecord),
      memUnderFilter cs d = true ↔
        ∃ c, (cs.find? fun x => x.id = d.contractorId) = some c ∧
          0 < d.productiveHours ∧
          d.productiveHours < (if c.contractorType = "Part Time" then (50 : ℚ) else 100)) ∧
    (∀ (d : ProductivityRecord) (c : Contractor),
      dbUnderFilter d c = true ↔
        0 < d.productiveHours ∧
          ((c.contractorType = "Full Time" ∧ d.productiveHours < 100) ∨
            (c.contractorType = "Part Time" ∧ d.productiveHours < 50))) ∧
    (∀ (st : MemState) (mo : String),
      ((memGetUnderPerformers st mo).map (fun r => (r.contractorId, r.hours))).Perm
        (((memGetProductivityDataByMonth st mo).filter
            (memUnderFilter (memGetAllContractors st))).map
          (fun d => (d.contractorId, d.productiveHours))) ∧
      (∀ r ∈ memGetUnderPerformers st mo, 0 < r.hours) ∧
      (memGetUnderPerformers st mo).Pairwise (fun a b => a.hours ≤ b.hours) ∧
      (memGetUnderPerformers st mo).map MonthlyRanking.rank =
        List.range' 1 (memGetUnderPerformers st mo).length) ∧
    (∀ (st : DbState) (mo : String),
      ((dbGetUnderPerformers st mo).map (fun r => (r.contractorId, r.hours))).Perm
        (((dbRankingRows st mo).filter fun p => dbUnderFilter p.1 p.2).map
          (fun p => (p.1.contractorId, p.1.productiveHours))) ∧
      (∀ r ∈ dbGetUnderPerformers st mo, 0 < r.hours) ∧
      (dbUnderSorted st mo).Pairwise (fun a b => dbUnderLE a b = true) ∧
      (dbGetUnderPerformers st mo).Pairwise (fun a b => a.hours ≤ b.hours) ∧
      (dbGetUnderPerformers st mo).map MonthlyRanking.rank =
        List.range' 1 (dbGetUnderPerformers st mo).length) := by
  have hchar : ∀ (cs : List Contractor) (d : ProductivityRecord),
      memUnderFilter cs d = true ↔
        ∃ c, (cs.find? fun x => x.id = d.contractorId) = some c ∧
          0 < d.productiveHours ∧
          d.productiveHours < (if c.contractorType = "Part Time" then (50 : ℚ) else 100) := by
    intro cs d
    unfold memUnderFilter
    rcases hfind : (cs.find? fun x => x.id = d.contractorId) with _ | c
    · rw [hfind]
      simp
    · rw [hfind]
      simp
  have hdbchar : ∀ (d : ProductivityRecord) (c : Contractor),
      dbUnderFilter d c = true ↔
        0 < d.productiveHours ∧
          ((c.contractorType = "Full Time" ∧ d.productiveHours < 100) ∨
            (c.contractorType = "Part Time" ∧ d.productiveHours < 50)) := by
    intro d c
    unfold dbUnderFilter
    simp
  refine ⟨hchar, hdbchar, ?_, ?_⟩
  · intro st mo
    have hunfold : memGetUnderPerformers st mo =
        (((((memGetProductivityDataByMonth st mo).filter
            (memUnderFilter (memGetAllContractors st))).map
            (memRankingEntry (memGetAllContractors st) mo)).mergeSort
            (fun a b => decide (a.hours ≤ b.hours))).enumFrom 0).map
          (fun p => { p.2 with rank := p.1 + 1 }) := rfl
    have hsorted : ((((memGetProductivityDataByMonth st mo).filter
        (memUnderFilter (memGetAllContractors st))).map
        (memRankingEntry (memGetAllContractors st) mo)).mergeSort
        (fun a b => decide (a.hours ≤ b.hours))).Pairwise
        (fun a b => (fun a b : MonthlyRanking => decide (a.hours ≤ b.hours)) a b = true) :=
      List.sorted_mergeSort memAscLE_trans memAscLE_total _
    refine ⟨?_, ?_, ?_, ?_⟩
    · have hproj := proj_of_enum_map
          (fun p : Nat × MonthlyRanking => { p.2 with rank := p.1 + 1 })
          (fun r : MonthlyRanking => (r.contractorId, r.hours))
          (fun e : MonthlyRanking => (e.contractorId, e.hours)) (fun p => rfl)
          ((((memGetProductivityDataByMonth st mo).filter
            (memUnderFilter (memGetAllContractors st))).map
            (memRankingEntry (memGetAllContractors st) mo)).mergeSort
            (fun a b => decide (a.hours ≤ b.hours))) 0
      rw [hunfold, hproj]
      have hp := (List.mergeSort_perm (((memGetProductivityDataByMonth st mo).filter
          (memUnderFilter (memGetAllContractors st))).map
          (memRankingEntry (memGetAllContractors st) mo))
          (fun a b => decide (a.hours ≤ b.hours))).map
          (fun e : MonthlyRanking => (e.contractorId, e.hours))
      refine hp.trans ?_
      rw [List.map_map]
      exact List.Perm.rfl
    · intro r hr
      rw [hunfold] at hr
      have hproj := proj_of_enum_map
          (fun p : Nat × MonthlyRanking => { p.2 with rank := p.1 + 1 })
          MonthlyRanking.hours MonthlyRanking.hours (fun p => rfl)
          ((((memGetProductivityDataByMonth st mo).filter
            (memUnderFilter (memGetAllContractors st))).map
            (memRankingEntry (memGetAllContractors st) mo)).mergeSort
            (fun a b => decide (a.hours ≤ b.hours))) 0
      have h1 := List.mem_map_of_mem MonthlyRanking.hours hr
      rw [hproj] at h1
      have hp := (List.mergeSort_perm (((memGetProductivityDataByMonth st mo).filter
          (memUnderFilter (memGetAllContractors st))).map
          (memRankingEntry (memGetAllContractors st) mo))
          (fun a b => decide (a.hours ≤ b.hours))).map MonthlyRanking.hours
      have h2 := hp.mem_iff.mp h1
      rw [List.map_map] at h2
      rcases List.mem_map.mp h2 with ⟨d, hd, hdh⟩
      have hflt := (List.mem_filter.mp hd).2
      rcases (hchar (memGetAllContractors st) d).mp hflt with ⟨c, _, hpos, _⟩
      rw [← hdh]
      exact hpos
    · rw [hunfold]
      refine pairwise_of_sorted_enum (fun p => { p.2 with rank := p.1 + 1 })
        (fun a b => a.hours ≤ b.hours) ?_ hsorted 0
      intro i a j b hab
      show a.hours ≤ b.hours
      exact of_decide_eq_true hab
    · have hranks := ranks_of_enum_map
          (fun p : Nat × MonthlyRanking => { p.2 with rank := p.1 + 1 })
          (fun p => rfl)
          ((((memGetProductivityDataByMonth st mo).filter
            (memUnderFilter (memGetAllContractors st))).map
            (memRankingEntry (memGetAllContractors st) mo)).mergeSort
            (fun a b => decide (a.hours ≤ b.hours))) 0
      rw [hunfold, hranks]
      simp
  · intro st mo
    have hunfold : dbGetUnderPerformers st mo =
        ((dbUnderSorted st mo).enumFrom 0).map
          (fun p => { contractorId := p.2.1.contractorId, name := p.2.2.name, hours := p.2.1.productiveHours, month := p.2.1.month, rank := p.1 + 1 }) := rfl
    have hsorted : (dbUnderSorted st mo).Pairwise (fun a b => dbUnderLE a b = true) :=
      List.sorted_mergeSort dbUnderLE_trans dbUnderLE_total _
    refine ⟨?_, ?_, hsorted, ?_, ?_⟩
    · have hproj := proj_of_enum_map
          (fun p : Nat × (ProductivityRecord × Contractor) => ({ contractorId := p.2.1.contractorId, name := p.2.2.name, hours := p.2.1.productiveHours, month := p.2.1.month, rank := p.1 + 1 } : MonthlyRanking))
          (fun r : MonthlyRanking => (r.contractorId, r.hours))
          (fun p : ProductivityRecord × Contractor => (p.1.contractorId, p.1.productiveHours))
          (fun p => rfl) (dbUnderSorted st mo) 0
      rw [hunfold, hproj]
      exact (List.mergeSort_perm ((dbRankingRows st mo).filter
          fun p => dbUnderFilter p.1 p.2) dbUnderLE).map
        (fun p : ProductivityRecord × Contractor => (p.1.contractorId, p.1.productiveHours))
    · intro r hr
      rw [hunfold] at hr
      have hproj := proj_of_enum_map
          (fun p : Nat × (ProductivityRecord × Contractor) => ({ contractorId := p.2.1.contractorId, name := p.2.2.name, hours := p.2.1.productiveHours, month := p.2.1.month, rank := p.1 + 1 } : MonthlyRanking))
          MonthlyRanking.hours
          (fun p : ProductivityRecord × Contractor => p.1.productiveHours)
          (fun p => rfl) (dbUnderSorted st mo) 0
      have h1 := List.mem_map_of_mem MonthlyRanking.hours hr
      rw [hproj] at h1
      have hp := (List.mergeSort_perm ((dbRankingRows st mo).filter
          fun p => dbUnderFilter p.1 p.2) dbUnderLE).map
          (fun p : ProductivityRecord × Contractor => p.1.productiveHours)
      have h2 := hp.mem_iff.mp h1
      rcases List.mem_map.mp h2 with ⟨p, hpmem, hph⟩
      have hflt := (List.mem_filter.mp hpmem).2
      have hpos := ((hdbchar p.1 p.2).mp (by simpa using hflt)).1
      rw [← hph]
      exact hpos
    · rw [hunfold]
      refine pairwise_of_sorted_enum
        (fun p => { contractorId := p.2.1.contractorId, name := p.2.2.name, hours := p.2.1.productiveHours, month := p.2.1.month, rank := p.1 + 1 })
        (fun a b => a.hours ≤ b.hours) ?_ hsorted 0
      intro i a j b hab
      show a.1.productiveHours ≤ b.1.productiveHours
      simp only [dbUnderLE, Bool.or_eq_true, Bool.and_eq_true, decide_eq_true_eq] at hab
      rcases hab with h | ⟨h, _⟩
      · exact le_of_lt h
      · exact le_of_eq h
    · have hranks := ranks_of_enum_map
          (fun p : Nat × (ProductivityRecord × Contractor) => ({ contractorId := p.2.1.contractorId, name := p.2.2.name, hours := p.2.1.productiveHours, month := p.2.1.month, rank := p.1 + 1 } : MonthlyRanking))
          (fun p => rfl) (dbUnderSorted st mo) 0
      rw [hunfold, hranks]
      simp

/-- C2 (witness): the amended under-performer facts, instantiated at the
concrete tied-hours store. -/
theorem c2_under_performers_witness :
    (memGetUnderPerformers c2Store "Aug-25").map MonthlyRanking.rank =
      List.range' 1 (memGetUnderPerformers c2Store "Aug-25").length :=
  (c2_under_performers_amended.2.2.1 c2Store "Aug-25").2.2.2

end Podcast
